import Mathlib

/-!
# pika: SSH login monitor (pkg/agent/sshmonitor)

A shallow embedding of the hook manager (hook_manager.go), the monitor
(monitor.go) and the hook client (hook_client.go), and the properties of
them that the specification states.

Modelling conventions.

* A Go string is a list of Unicode code points (valid UTF-8 text).
* A file is its byte content; the lines of a file are what bufio.Scanner
  with the default split function (bufio.ScanLines) yields for it.
* Reading calls on the modelled paths (os.Open for reading, os.Lstat,
  os.Readlink, the scanner) are functions of the modelled state.  Calls that
  change the file system, run a process or touch a path outside the model can
  fail for reasons outside the state; each such call site takes its outcome
  from a record of injected faults, and the properties hold for all of them
  unless they say otherwise.
* Permission bits are not modelled (os.Chmod on the two configuration files
  has no effect on the model).
-/

set_option autoImplicit false

namespace Pika

/-! ## Strings -/

/-- Go string: the sequence of code points of a valid UTF-8 string. -/
abbrev GoString := List Char

/-- Go `unicode.IsSpace`: the Latin-1 spaces and the code points with the
White_Space property. -/
def isSpace (c : Char) : Bool :=
  let n := c.toNat
  n == 0x09 || n == 0x0A || n == 0x0B || n == 0x0C || n == 0x0D || n == 0x20 ||
  n == 0x85 || n == 0xA0 || n == 0x1680 || (0x2000 ≤ n && n ≤ 0x200A) ||
  n == 0x2028 || n == 0x2029 || n == 0x202F || n == 0x205F || n == 0x3000

/-- Go `strings.TrimSpace`: leading and trailing white space removed. -/
def trimSpace (s : GoString) : GoString :=
  (s.rdropWhile isSpace).dropWhile isSpace

/-- Go `strings.HasPrefix`. -/
def hasPrefix (s pre : GoString) : Bool :=
  pre.isPrefixOf s

/-- Go `strings.Contains`: `sub` occurs in `s` as a contiguous substring. -/
def contains (s sub : GoString) : Bool :=
  s.tails.any fun t => sub.isPrefixOf t

/-- Worker of `fields`: `cur` is the field being read, reversed. -/
def fieldsGo : List Char → List Char → List GoString
  | [], cur => if cur = [] then [] else [cur.reverse]
  | c :: cs, cur =>
    if isSpace c then
      (if cur = [] then fieldsGo cs [] else cur.reverse :: fieldsGo cs [])
    else fieldsGo cs (c :: cur)

/-- Go `strings.Fields`: the maximal runs of non-space characters. -/
def fields (s : GoString) : List GoString :=
  fieldsGo s []

/-! ## Errors -/

/-- The `syscall.Errno` values used here. -/
inductive Errno where
  | EPERM | ENOENT | EIO | EACCES | EEXIST | ENOSPC | EROFS | EMFILE | ENOTEMPTY
  | EADDRINUSE
  deriving DecidableEq, Repr

/-- Sentinel error values (`errors.New` variables of the standard library). -/
inductive Sentinel where
  | ErrPermission   -- os.ErrPermission
  | ErrNotExist     -- os.ErrNotExist
  | ErrExist        -- os.ErrExist
  | OsErrClosed     -- os.ErrClosed
  | NetErrClosed    -- net.ErrClosed
  | ErrTooLong      -- bufio.ErrTooLong
  deriving DecidableEq, Repr

/-- Go error values, by dynamic type. -/
inductive GoError where
  | errno (e : Errno)                                      -- syscall.Errno
  | sentinel (s : Sentinel)
  | pathError (op : String) (path : GoString) (err : GoError)   -- *fs.PathError
  | linkError (op : String) (old new : GoString) (err : GoError)  -- *os.LinkError
  | syscallError (call : String) (err : GoError)           -- *os.SyscallError
  | wrapError (msg : String) (err : GoError)               -- fmt.Errorf with one %w
  | errorString (msg : String)                             -- fmt.Errorf without %w
  deriving DecidableEq, Repr

/-- Method `syscall.Errno.Is`. -/
def errnoIs (e : Errno) (target : Sentinel) : Bool :=
  match target, e with
  | .ErrPermission, .EACCES => true
  | .ErrPermission, .EPERM => true
  | .ErrExist, .EEXIST => true
  | .ErrExist, .ENOTEMPTY => true
  | .ErrNotExist, .ENOENT => true
  | _, _ => false

/-- Go `os.underlyingError`: unwraps the three error types of package os, one
level, and nothing else. -/
def underlyingError : GoError → GoError
  | .pathError _ _ err => err
  | .linkError _ _ _ err => err
  | .syscallError _ err => err
  | err => err

/-- Go `os.underlyingErrorIs`. -/
def underlyingErrorIs (err : GoError) (target : Sentinel) : Bool :=
  match underlyingError err with
  | .sentinel s => s == target
  | .errno e => errnoIs e target
  | _ => false

/-- Go `os.IsPermission`. -/
def osIsPermission (err : GoError) : Bool :=
  underlyingErrorIs err .ErrPermission

/-- Go `os.IsNotExist`. -/
def osIsNotExist (err : GoError) : Bool :=
  underlyingErrorIs err .ErrNotExist

/-- Go `errors.Is` against a sentinel: follows the whole Unwrap chain. -/
def errorsIs : GoError → Sentinel → Bool
  | .errno e, target => errnoIs e target
  | .sentinel s, target => s == target
  | .pathError _ _ err, target => errorsIs err target
  | .linkError _ _ _ err, target => errorsIs err target
  | .syscallError _ err, target => errorsIs err target
  | .wrapError _ err, target => errorsIs err target
  | .errorString _, _ => false

/-! ## Line scanner and writer -/

/-- File content. -/
abbrev Bytes := List Char

/-- Number of bytes of the UTF-8 encoding. -/
def byteLen (s : List Char) : Nat :=
  (s.map Char.utf8Size).sum

/-- Go `bufio.MaxScanTokenSize`. -/
def maxScanTokenSize : Nat := 64 * 1024

/-- The tokens of `bufio.ScanLines` before the carriage return is dropped: the
text is cut at every newline, and a last piece without newline is a token only
when it is not empty. -/
def rawLines : List Char → List (List Char)
  | [] => []
  | c :: cs =>
    if c = '\n' then [] :: rawLines cs
    else
      match rawLines cs with
      | [] => [[c]]
      | l :: ls => (c :: l) :: ls

/-- Go `bufio.dropCR`: one trailing carriage return removed. -/
def dropCR (data : List Char) : List Char :=
  if data.getLast? = some '\r' then data.dropLast else data

/-- The loop `for scanner.Scan() { lines = append(lines, scanner.Text()) }`
over the tokens, with `scanner.Err()`: the scan stops with `ErrTooLong` at the
first token that does not fit the buffer of `maxScanTokenSize` bytes. -/
def scanTokens : List (List Char) → List GoString × Option GoError
  | [] => ([], none)
  | t :: ts =>
    if maxScanTokenSize ≤ byteLen t then ([], some (.sentinel .ErrTooLong))
    else ((dropCR t) :: (scanTokens ts).1, (scanTokens ts).2)

/-- The lines a `bufio.Scanner` yields for a file, and its final error. -/
def scanLines (content : Bytes) : List GoString × Option GoError :=
  scanTokens (rawLines content)

/-- The bytes produced by `for _, line := range newLines { writer.WriteString(line + "\n") }`. -/
def render : List GoString → Bytes
  | [] => []
  | l :: ls => l ++ '\n' :: render ls

/-! ## Hook manager: constants -/

def PAMConfigFile : GoString := "/etc/pam.d/sshd".toList
def HookBinaryPath : GoString := "/usr/local/bin/pika-agent".toList
def HookCommand : GoString := "ssh-login-hook".toList
def SSHDConfigFile : GoString := "/etc/ssh/sshd_config".toList
def UsePAMDirective : GoString := "UsePAM yes".toList

/-- Go `fmt.Sprintf("session optional pam_exec.so %s %s", HookBinaryPath, HookCommand)`. -/
def pamConfigLine : GoString :=
  "session optional pam_exec.so ".toList ++ HookBinaryPath ++ " ".toList ++ HookCommand

def legacyPamConfigLine : GoString :=
  "session optional pam_exec.so /usr/local/bin/pika_ssh_hook.sh".toList

/-! ## The file system and the processes the hook manager touches -/

/-- What occupies the hook path `/usr/local/bin/pika-agent`. -/
inductive Entry where
  | regular (content : Bytes)
  | symlink (target : GoString)
  deriving DecidableEq, Repr

/-- An external command, as the argument list of `exec.Command`. -/
abbrev Command := List GoString

/-- The part of the machine the agent reads and changes. -/
structure World where
  /-- Result of `os.Geteuid()`. -/
  euid : Nat
  /-- Path of the running executable, as `os.Executable()` reports it. -/
  execPath : GoString
  /-- Content of the running executable. -/
  execContent : Bytes
  /-- Content of `/etc/pam.d/sshd`, when the file exists. -/
  pam : Option Bytes
  /-- Content of `/etc/pam.d/sshd.bak`. -/
  pamBak : Option Bytes
  /-- Content of `/etc/ssh/sshd_config`. -/
  sshd : Option Bytes
  /-- Content of `/etc/ssh/sshd_config.bak`. -/
  sshdBak : Option Bytes
  /-- Entry at the hook path. -/
  hook : Option Entry
  /-- Whether the socket directory `/run/pika` exists. -/
  socketDir : Bool
  /-- Whether the socket file `/run/pika/ssh_login.sock` exists. -/
  socket : Bool
  /-- External commands run so far, oldest first. -/
  commands : List Command
  deriving DecidableEq, Repr

/-- Injected outcomes of the calls of one backup-and-rewrite of a
configuration file; `none` means the call succeeds. -/
structure RewriteFaults where
  /-- The call `os.Rename(file, backupPath)`. -/
  rename : Option GoError
  /-- The call `os.Create(file)`. -/
  create : Option GoError
  /-- The buffered writes and `writer.Flush()`: on failure, the number of bytes
  that reached the file and the error `Flush` reports. -/
  flush : Option (Nat × GoError)
  /-- The call `os.Rename(backupPath, file)` that puts the backup back; the
  source discards its result. -/
  restore : Option GoError
  deriving DecidableEq, Repr

/-- Injected outcomes of the calls of `ensureHookBinary` and `copyFile`. -/
structure HookFaults where
  /-- The call `os.Executable()`. -/
  executable : Option GoError
  /-- The call `os.MkdirAll(filepath.Dir(HookBinaryPath), 0755)`. -/
  mkdirAll : Option GoError
  /-- The call `os.Remove(HookBinaryPath)`, whose result is discarded, when an
  entry is there. -/
  remove : Option GoError
  /-- The call `os.Symlink(execPath, HookBinaryPath)`, when the path is free. -/
  symlink : Option GoError
  /-- In `copyFile`: `os.Open(src)`. -/
  openSrc : Option GoError
  /-- In `copyFile`: `os.Create(dst)`. -/
  createDst : Option GoError
  /-- In `copyFile`: `io.Copy`; on failure, the bytes copied and the error. -/
  copy : Option (Nat × GoError)
  /-- In `copyFile`: `os.Chmod(dst, perm)`. -/
  chmod : Option GoError
  deriving DecidableEq, Repr

/-- Injected outcomes of one call of `Install`. -/
structure InstallFaults where
  /-- The rewrite of the sshd config in `ensureUsePAM`. -/
  sshd : RewriteFaults
  /-- Outcome of `cmd.Run()` for each external command. -/
  run : Command → Option GoError
  /-- The calls of `ensureHookBinary`. -/
  hook : HookFaults
  /-- The rewrite of the PAM file in `modifyPAMConfig(true)`. -/
  pam : RewriteFaults
  /-- The call `os.Remove(HookBinaryPath)` of the rollback. -/
  rollback : Option GoError

/-- Injected outcomes of one call of `Uninstall`. -/
structure UninstallFaults where
  /-- The rewrite of the PAM file in `modifyPAMConfig(false)`. -/
  pam : RewriteFaults
  /-- The call `os.Remove(HookBinaryPath)` in `removeHookBinary`. -/
  remove : Option GoError
  deriving DecidableEq, Repr

/-! ## Hook manager -/

/-- One iteration of the loop of `modifyPAMConfig` over the lines read; the
state is `(newLines, found)`. -/
def pamLoopStep (add : Bool) (st : List GoString × Bool) (line : GoString) :
    List GoString × Bool :=
  let trimmed := trimSpace line
  if trimmed = legacyPamConfigLine then st
  else if trimmed = pamConfigLine then
    (if add then st.1 ++ [line] else st.1, true)
  else (st.1 ++ [line], st.2)

/-- The value of `newLines` that `modifyPAMConfig` writes, from the lines read. -/
def pamNewLines (add : Bool) (lines : List GoString) : List GoString :=
  let st := lines.foldl (pamLoopStep add) ([], false)
  if add && !st.2 then st.1 ++ [pamConfigLine] else st.1

/-- Puts the backup of the PAM file back: `os.Rename(backupPath, PAMConfigFile)`,
result discarded. -/
def restorePAM (restore : Option GoError) (w : World) : World :=
  match restore with
  | some _ => w
  | none => { w with pam := w.pamBak, pamBak := none }

/-- Source function `modifyPAMConfig`: `add = true` registers the hook line,
`add = false` removes it. -/
def modifyPAMConfig (add : Bool) (f : RewriteFaults) (w : World) : Option GoError × World :=
  match w.pam with
  | none => (some (.pathError "open" PAMConfigFile (.errno .ENOENT)), w)
  | some content =>
    match scanLines content with
    | (_, some err) => (some err, w)
    | (lines, none) =>
      let newLines := pamNewLines add lines
      match f.rename with
      | some err => (some err, w)
      | none =>
        let w1 := { w with pam := none, pamBak := some content }
        match f.create with
        | some err => (some err, restorePAM f.restore w1)
        | none =>
          match f.flush with
          | some (n, err) =>
            (some err, restorePAM f.restore { w1 with pam := some ((render newLines).take n) })
          | none => (none, { w1 with pam := some (render newLines) })

/-- One iteration of the loop of `ensureUsePAM`; the state is
`(newLines, usePAMEnabled)`. -/
def usePAMLoopStep (st : List GoString × Bool) (line : GoString) : List GoString × Bool :=
  let trimmed := trimSpace line
  if hasPrefix trimmed "UsePAM".toList then
    if contains trimmed "yes".toList && !hasPrefix trimmed "#".toList then
      (st.1 ++ [line], true)
    else if !hasPrefix trimmed "#".toList then
      (st.1 ++ ["# ".toList ++ line], st.2)
    else
      (st.1 ++ [line], st.2)
  else (st.1 ++ [line], st.2)

/-- The loop of `ensureUsePAM` over the lines read. -/
def usePAMLoop (lines : List GoString) : List GoString × Bool :=
  lines.foldl usePAMLoopStep ([], false)

/-- Command `exec.Command("systemctl", "restart", "sshd")`. -/
def systemctlRestartSshd : Command := ["systemctl".toList, "restart".toList, "sshd".toList]

/-- Command `exec.Command("service", "sshd", "restart")`. -/
def serviceSshdRestart : Command := ["service".toList, "sshd".toList, "restart".toList]

/-- Command `exec.Command("systemctl", "restart", "ssh")`. -/
def systemctlRestartSsh : Command := ["systemctl".toList, "restart".toList, "ssh".toList]

/-- Command `exec.Command("service", "ssh", "restart")`. -/
def serviceSshRestart : Command := ["service".toList, "ssh".toList, "restart".toList]

/-- The four restart commands, in the order `restartSSHD` tries them. -/
def restartCommands : List Command :=
  [systemctlRestartSshd, serviceSshdRestart, systemctlRestartSsh, serviceSshRestart]

/-- Runs one command: `exec.Command(...).Run()`. -/
def runCommand (run : Command → Option GoError) (cmd : Command) (w : World) :
    Option GoError × World :=
  (run cmd, { w with commands := w.commands ++ [cmd] })

/-- Source function `restartSSHD`. -/
def restartSSHD (run : Command → Option GoError) (w : World) : Option GoError × World :=
  match runCommand run systemctlRestartSshd w with
  | (none, w1) => (none, w1)
  | (some _, w1) =>
    match runCommand run serviceSshdRestart w1 with
    | (none, w2) => (none, w2)
    | (some _, w2) =>
      match runCommand run systemctlRestartSsh w2 with
      | (none, w3) => (none, w3)
      | (some _, w3) =>
        match runCommand run serviceSshRestart w3 with
        | (none, w4) => (none, w4)
        | (some _, w4) => (some (.errorString "无法找到合适的方式重启 sshd 服务"), w4)

/-- Puts the backup of the sshd config back: `os.Rename(backupPath, SSHDConfigFile)`,
result discarded. -/
def restoreSSHD (restore : Option GoError) (w : World) : World :=
  match restore with
  | some _ => w
  | none => { w with sshd := w.sshdBak, sshdBak := none }

/-- Source function `ensureUsePAM`. -/
def ensureUsePAM (f : RewriteFaults) (run : Command → Option GoError) (w : World) :
    Option GoError × World :=
  match w.sshd with
  | none => (some (.pathError "open" SSHDConfigFile (.errno .ENOENT)), w)
  | some content =>
    match scanLines content with
    | (_, some err) => (some err, w)
    | (lines, none) =>
      let st := usePAMLoop lines
      if st.2 then (none, w)
      else
        let newLines := st.1 ++ [UsePAMDirective]
        match f.rename with
        | some err => (some err, w)
        | none =>
          let w1 := { w with sshd := none, sshdBak := some content }
          match f.create with
          | some err => (some err, restoreSSHD f.restore w1)
          | none =>
            match f.flush with
            | some (n, err) =>
              (some err, restoreSSHD f.restore { w1 with sshd := some ((render newLines).take n) })
            | none =>
              -- a failed restart is logged, not returned
              (none, (restartSSHD run { w1 with sshd := some (render newLines) }).2)

/-- Source function `isInstalled`: some line of the PAM file, trimmed, is the
hook line.  The lines are those the scanner yields before it stops. -/
def isInstalled (w : World) : Bool :=
  match w.pam with
  | none => false
  | some content => (scanLines content).1.any fun line => trimSpace line == pamConfigLine

/-- Source function `copyFile`, at its one call `copyFile(execPath, HookBinaryPath, 0755)`.
`os.Create` follows a symbolic link left at the destination: the data then go
to the target of the link, which is outside the modelled paths, and the link
stays. -/
def copyFile (f : HookFaults) (w : World) : Option GoError × World :=
  let put : Bytes → World := fun b =>
    match w.hook with
    | some (.symlink _) => w
    | _ => { w with hook := some (.regular b) }
  match f.openSrc with
  | some err => (some err, w)
  | none =>
    match f.createDst with
    | some err => (some err, w)
    | none =>
      match f.copy with
      | some (n, err) => (some err, put (w.execContent.take n))
      | none =>
        match f.chmod with
        | some err => (some err, put w.execContent)
        | none => (none, put w.execContent)

/-- Source function `ensureHookBinary`. -/
def ensureHookBinary (f : HookFaults) (w : World) : Option GoError × World :=
  match f.executable with
  | some err => (some err, w)
  | none =>
    if w.execPath = HookBinaryPath then (none, w)
    else
      match f.mkdirAll with
      | some err => (some err, w)
      | none =>
        -- Lstat succeeds, the entry is a symbolic link, and Readlink gives execPath
        if w.hook = some (.symlink w.execPath) then (none, w)
        else
          -- `_ = os.Remove(HookBinaryPath)`
          let w1 := match f.remove with
            | some _ => w
            | none => { w with hook := none }
          -- os.Symlink fails when the path is still occupied
          if f.symlink = none ∧ w1.hook = none then
            (none, { w1 with hook := some (.symlink w.execPath) })
          else copyFile f w1

/-- Source function `removeHookBinary`: removes the entry at the hook path only
when it is a symbolic link; `remove` is the outcome of `os.Remove`, discarded. -/
def removeHookBinary (remove : Option GoError) (w : World) : World :=
  match w.hook with
  | none => w
  | some (.regular _) => w
  | some (.symlink _) =>
    match remove with
    | some _ => w
    | none => { w with hook := none }

/-- Source function `Install`. -/
def Install (f : InstallFaults) (w : World) : Option GoError × World :=
  if w.euid ≠ 0 then
    (some (.wrapError ": 安装 PAM Hook 需要 root 权限" (.sentinel .ErrPermission)), w)
  else if isInstalled w then (none, w)
  else
    match ensureUsePAM f.sshd f.run w with
    | (some err, w1) => (some (.wrapError "配置 SSH UsePAM 失败: " err), w1)
    | (none, w1) =>
      match ensureHookBinary f.hook w1 with
      | (some err, w2) => (some (.wrapError "安装 Hook 可执行文件失败: " err), w2)
      | (none, w2) =>
        match modifyPAMConfig true f.pam w2 with
        | (some err, w3) =>
          (some (.wrapError "修改 PAM 配置失败: " err), removeHookBinary f.rollback w3)
        | (none, w3) => (none, w3)

/-- Source function `Uninstall`: a failed rewrite of the PAM file is logged, not
returned. -/
def Uninstall (f : UninstallFaults) (w : World) : Option GoError × World :=
  (none, removeHookBinary f.remove (modifyPAMConfig false f.pam w).2)

/-! ## Events -/

/-- Source type `SSHLoginEvent` (event.go). -/
structure SSHLoginEvent where
  Username : GoString
  IP : GoString
  Port : GoString
  Timestamp : Int
  Status : GoString
  Method : GoString
  TTY : GoString
  SessionID : GoString
  deriving DecidableEq, Repr

/-! ## Hook client -/

/-- Source function `BuildEventFromEnv`; `getenv` is `os.Getenv`, `now` is
`time.Now().UnixMilli()` and `pid` is `os.Getpid()`. -/
def BuildEventFromEnv (getenv : GoString → GoString) (now : Int) (pid : Nat) : SSHLoginEvent :=
  let username := getenv "PAM_USER".toList
  let username := if username = [] then "unknown".toList else username
  let ip := getenv "PAM_RHOST".toList
  let tty := getenv "PAM_TTY".toList
  let tty := if tty = [] then "unknown".toList else tty
  let conn := getenv "SSH_CONNECTION".toList
  let parts := fields conn
  let port := if conn ≠ [] ∧ 2 ≤ parts.length then parts.getD 1 [] else []
  let ip := if conn ≠ [] ∧ ip = [] ∧ 1 ≤ parts.length then parts.getD 0 [] else ip
  let ip := if ip = [] then "localhost".toList else ip
  { Username := username
    IP := ip
    Port := port
    Timestamp := now
    Status := "success".toList
    Method := "unknown".toList
    TTY := tty
    SessionID := (Nat.repr pid).toList }

/-! ## Monitor -/

def DefaultSocketDir : GoString := "/run/pika".toList
def DefaultSocketPath : GoString := "/run/pika/ssh_login.sock".toList

/-- Modelled from the spec: the configuration type `protocol.SSHLoginConfig`
(package internal/protocol is not among the sources), a structure with at least
`enabled` (bool); `Start` reads the field `Enabled` and no other. -/
structure SSHLoginConfig where
  Enabled : Bool
  deriving DecidableEq, Repr

/-- Source type `Monitor`.  The lock `mu` serialises `Start` and `Stop`, which
are modelled as atomic steps. -/
structure Monitor where
  enabled : Bool
  socketPath : GoString
  /-- Whether `m.listener` is not nil. -/
  listener : Bool
  /-- Whether `m.cancel` is not nil. -/
  cancel : Bool
  /-- Content of the buffered channel `eventCh`, oldest first. -/
  eventCh : List SSHLoginEvent
  /-- Capacity of the channel `eventCh`. -/
  eventChCap : Nat
  /-- Number of `go m.readLoop()` statements executed. -/
  loopsStarted : Nat
  deriving DecidableEq, Repr

/-- Source function `NewMonitor`. -/
def NewMonitor : Monitor :=
  { enabled := false
    socketPath := DefaultSocketPath
    listener := false
    cancel := false
    eventCh := []
    eventChCap := 100
    loopsStarted := 0 }

/-- Injected outcomes of the calls of `initSocket`. -/
structure SocketFaults where
  /-- The call `os.MkdirAll(DefaultSocketDir, 0755)`. -/
  mkdirAll : Option GoError
  /-- The call `os.Remove(m.socketPath)`, when the socket file exists. -/
  remove : Option GoError
  /-- The call `net.ListenUnixgram`, when the path is free. -/
  listen : Option GoError
  deriving DecidableEq, Repr

/-- Injected outcomes of the calls of `stopInternal`. -/
structure StopFaults where
  /-- The call `os.Remove(m.socketPath)`, when the socket file exists. -/
  remove : Option GoError
  /-- The calls of `Uninstall`. -/
  uninstall : UninstallFaults
  deriving DecidableEq, Repr

/-- Injected outcomes of one call of `Start`. -/
structure StartFaults where
  /-- The internal stop of a monitor that is already running. -/
  restart : StopFaults
  /-- The calls of `initSocket`. -/
  socket : SocketFaults
  /-- The calls of `Install`. -/
  install : InstallFaults
  /-- The stop after a failed installation. -/
  abort : StopFaults

/-- The call `os.Remove(m.socketPath)`: fails with ENOENT when the file is not
there, otherwise as injected. -/
def removeSocket (fault : Option GoError) (m : Monitor) (w : World) : Option GoError × World :=
  if w.socket then
    match fault with
    | some err => (some err, w)
    | none => (none, { w with socket := false })
  else (some (.pathError "remove" m.socketPath (.errno .ENOENT)), w)

/-- Source function `stopInternal`. -/
def stopInternal (f : StopFaults) (m : Monitor) (w : World) : Option GoError × Monitor × World :=
  if !m.enabled then (none, m, w)
  else
    let m1 := { m with cancel := false }
    let m2 := { m1 with listener := false }
    let w1 := (removeSocket f.remove m2 w).2
    let w2 := (Uninstall f.uninstall w1).2
    (none, { m2 with enabled := false }, w2)

/-- Source function `Stop`. -/
def Stop (f : StopFaults) (m : Monitor) (w : World) : Option GoError × Monitor × World :=
  stopInternal f m w

/-- The end of `initSocket`, from `net.ListenUnixgram` on: binding fails when
the socket file is still there, otherwise as injected. -/
def listenSocket (f : SocketFaults) (m : Monitor) (w : World) : Option GoError × Monitor × World :=
  match (if w.socket then some (.syscallError "bind" (.errno .EADDRINUSE)) else f.listen) with
  | some err => (some (.wrapError "监听 socket 失败: " err), m, w)
  | none =>
    -- context.WithCancel, m.listener = conn, go m.readLoop()
    (none, { m with cancel := true, listener := true, loopsStarted := m.loopsStarted + 1 },
      { w with socket := true })

/-- Source function `initSocket`. -/
def initSocket (f : SocketFaults) (m : Monitor) (w : World) : Option GoError × Monitor × World :=
  match f.mkdirAll with
  | some err => (some (.wrapError "创建 socket 目录失败: " err), m, w)
  | none =>
    let w1 := { w with socketDir := true }
    match removeSocket f.remove m w1 with
    | (some err, w2) =>
      if !osIsNotExist err then (some (.wrapError "清理旧 socket 失败: " err), m, w2)
      else listenSocket f m w2
    | (none, w2) => listenSocket f m w2

/-- Source function `Start`; `goos` is the constant `runtime.GOOS`. -/
def Start (goos : GoString) (config : SSHLoginConfig) (f : StartFaults) (m : Monitor)
    (w : World) : Option GoError × Monitor × World :=
  if goos ≠ "linux".toList then (some (.errorString "SSH登录监控仅支持 Linux 系统"), m, w)
  else
    let s0 := if m.enabled then stopInternal f.restart m w else (none, m, w)
    if !config.Enabled then (none, s0.2.1, s0.2.2)
    else
      match initSocket f.socket s0.2.1 s0.2.2 with
      | (some err, m1, w1) => (some err, m1, w1)
      | (none, m1, w1) =>
        let m2 := { m1 with enabled := true }
        match Install f.install w1 with
        | (some err, w2) =>
          if osIsPermission err then (none, m2, w2)
          else
            let s3 := stopInternal f.abort m2 w2
            (some err, s3.2.1, s3.2.2)
        | (none, w2) => (none, m2, w2)

/-- One result of `m.listener.ReadFromUnix(buf)`. -/
inductive ReadResult where
  /-- The read failed with `err`; `ctxDone` tells whether `m.ctx` is done when
  the loop looks at it. -/
  | failed (err : GoError) (ctxDone : Bool)
  /-- The read returned the bytes `data` (`buf[:n]`); `now` is
  `time.Now().UnixMilli()` in this iteration. -/
  | received (data : Bytes) (now : Int)

/-- What the decode loop logs. -/
inductive LogEntry where
  | readFailed (err : GoError)
  | decodeFailed (err : GoError)
  | detected (event : SSHLoginEvent)
  | queueFull
  deriving DecidableEq, Repr

/-- The two backfills of the decode loop. -/
def backfill (event : SSHLoginEvent) (now : Int) : SSHLoginEvent :=
  let event := if event.Timestamp = 0 then { event with Timestamp := now } else event
  if event.Status = [] then { event with Status := "success".toList } else event

/-- One iteration of the loop of `readLoop`; `none` means the loop returns.
`unmarshal` is `json.Unmarshal` into a zero `SSHLoginEvent`. -/
def readLoopStep (unmarshal : Bytes → Except GoError SSHLoginEvent)
    (st : Monitor × List LogEntry) : ReadResult → Option (Monitor × List LogEntry)
  | .failed err ctxDone =>
    if errorsIs err .NetErrClosed || errorsIs err .OsErrClosed then none
    else if ctxDone then none
    else some (st.1, st.2 ++ [.readFailed err])
  | .received data now =>
    if data = [] then some st
    else
      match unmarshal data with
      | .error err => some (st.1, st.2 ++ [.decodeFailed err])
      | .ok event =>
        -- `select { case m.eventCh <- event: ... default: ... }`
        if st.1.eventCh.length < st.1.eventChCap then
          some ({ st.1 with eventCh := st.1.eventCh ++ [backfill event now] },
            st.2 ++ [.detected (backfill event now)])
        else some (st.1, st.2 ++ [.queueFull])

/-- Source function `readLoop`, run on the results of its successive reads.
The flag tells whether the loop has returned; when the results are used up and
it has not, the loop is waiting in the next read. -/
def readLoop (unmarshal : Bytes → Except GoError SSHLoginEvent) :
    List ReadResult → Monitor × List LogEntry → (Monitor × List LogEntry) × Bool
  | [], st => (st, false)
  | r :: rs, st =>
    match readLoopStep unmarshal st r with
    | none => (st, true)
    | some st1 => readLoop unmarshal rs st1

/-! ## Predicates used in the statements -/

/-- The line, trimmed, is the hook directive. -/
def isHookLine (line : GoString) : Bool :=
  trimSpace line == pamConfigLine

/-- The line, trimmed, is the legacy hook directive. -/
def isLegacyLine (line : GoString) : Bool :=
  trimSpace line == legacyPamConfigLine

/-- The line, as read, still ends in a carriage return. -/
def endsInCR (line : GoString) : Bool :=
  line.getLast? == some '\r'

/-- The commands that get run when the list `cmds` is tried in order until one
succeeds. -/
def attempted (run : Command → Option GoError) : List Command → List Command
  | [] => []
  | c :: cs => if run c = none then [c] else c :: attempted run cs

/-- The order of the restart commands as the specification gives it: the
service manager for the two unit names, then the init script for the two
names. -/
def specRestartOrder : List Command :=
  [systemctlRestartSshd, systemctlRestartSsh, serviceSshdRestart, serviceSshRestart]

/-- The event the specification has the listener publish for a decoded event
received at time `now`: the timestamp is the one of the sender when it is not
zero, otherwise the time of receipt; the status is the one of the sender when
it is not empty, otherwise `success`; every other field is as decoded. -/
def expectedEvent (e : SSHLoginEvent) (now : Int) : SSHLoginEvent :=
  { Username := e.Username
    IP := e.IP
    Port := e.Port
    Timestamp := if e.Timestamp ≠ 0 then e.Timestamp else now
    Status := if e.Status ≠ [] then e.Status else "success".toList
    Method := e.Method
    TTY := e.TTY
    SessionID := e.SessionID }

/-- The event to publish for one datagram `(data, now)`, when the datagram is
not empty and decodes. -/
def expectedOfDatagram (unmarshal : Bytes → Except GoError SSHLoginEvent)
    (d : Bytes × Int) : Option SSHLoginEvent :=
  if d.1 = [] then none
  else
    match unmarshal d.1 with
    | .ok e => some (expectedEvent e d.2)
    | .error _ => none

/-- The events to publish for a sequence of datagrams, in arrival order. -/
def expectedEvents (unmarshal : Bytes → Except GoError SSHLoginEvent)
    (ds : List (Bytes × Int)) : List SSHLoginEvent :=
  ds.filterMap (expectedOfDatagram unmarshal)

/-- The specification's enabled line: an uncommented line whose keyword is
`UsePAM` and whose value is `yes`, that is, whose first two fields are `UsePAM`
and `yes`. -/
def specEnabledLine (line : GoString) : Bool :=
  match fields line with
  | keyword :: value :: _ => keyword == "UsePAM".toList && value == "yes".toList
  | _ => false

/-- The test the loop of `ensureUsePAM` makes before it sets `usePAMEnabled`:
the trimmed line begins with `UsePAM` and has `yes` somewhere in it. -/
def codeEnabledLine (line : GoString) : Bool :=
  hasPrefix (trimSpace line) "UsePAM".toList && contains (trimSpace line) "yes".toList

/-- The line that replaces `line` in the rewritten sshd config: a line that,
trimmed, begins with `UsePAM` gets the comment marker in front. -/
def commentOut (line : GoString) : GoString :=
  if hasPrefix (trimSpace line) "UsePAM".toList then "# ".toList ++ line else line

/-! ## Concrete inputs -/

/-- No call of a rewrite fails. -/
def noRewriteFaults : RewriteFaults :=
  { rename := none, create := none, flush := none, restore := none }

/-- No call of `ensureHookBinary` fails. -/
def noHookFaults : HookFaults :=
  { executable := none, mkdirAll := none, remove := none, symlink := none,
    openSrc := none, createDst := none, copy := none, chmod := none }

/-- No call of `Install` fails. -/
def noInstallFaults : InstallFaults :=
  { sshd := noRewriteFaults, run := fun _ => none, hook := noHookFaults,
    pam := noRewriteFaults, rollback := none }

/-- No call of `Uninstall` fails. -/
def noUninstallFaults : UninstallFaults :=
  { pam := noRewriteFaults, remove := none }

/-- A machine on which the agent runs as root from `/opt/pika/pika-agent`, with
a two-line PAM file, an sshd config that disables PAM, and nothing at the hook
path. -/
def freshWorld : World :=
  { euid := 0
    execPath := "/opt/pika/pika-agent".toList
    execContent := "ELF".toList
    pam := some "auth include system-auth\nsession required pam_limits.so\n".toList
    pamBak := none
    sshd := some "Port 22\nUsePAM no\n".toList
    sshdBak := none
    hook := none
    socketDir := false
    socket := false
    commands := [] }

/-- The machine `freshWorld` with a PAM file whose one line ends in two carriage
returns before the newline. -/
def crWorld : World :=
  { freshWorld with pam := some "session required pam_limits.so\r\r\n".toList }

/-- A rewrite of the file `path` whose write fails after 10 bytes (no space
left); the backup is put back. -/
def flushFails (path : GoString) : RewriteFaults :=
  { rename := none
    create := none
    flush := some (10, .pathError "write" path (.errno .ENOSPC))
    restore := none }

/-- A rewrite of the file `path` on a file system that turns read-only after
the backup rename: the creation of the new file fails, and so does the rename
that should put the backup back. -/
def turnsReadOnly (path : GoString) : RewriteFaults :=
  { rename := none
    create := some (.pathError "open" path (.errno .EROFS))
    flush := none
    restore := some (.linkError "rename" (path ++ ".bak".toList) path (.errno .EROFS)) }

/-- No call of `initSocket` fails. -/
def noSocketFaults : SocketFaults :=
  { mkdirAll := none, remove := none, listen := none }

/-- No call of `stopInternal` fails. -/
def noStopFaults : StopFaults :=
  { remove := none, uninstall := noUninstallFaults }

/-- No call of `Start` fails. -/
def noStartFaults : StartFaults :=
  { restart := noStopFaults, socket := noSocketFaults, install := noInstallFaults,
    abort := noStopFaults }

/-- The machine `freshWorld` with the agent running as the user 1000, who may
create the socket. -/
def userWorld : World :=
  { freshWorld with euid := 1000 }

/-- The calls of a `Start` by a user who may create the socket and may not
rename files in `/etc/pam.d`. -/
def userStartFaults : StartFaults :=
  { noStartFaults with
    abort := { noStopFaults with
      uninstall := { noUninstallFaults with
        pam := { noRewriteFaults with
          rename := some (.linkError "rename" PAMConfigFile (PAMConfigFile ++ ".bak".toList)
            (.errno .EACCES)) } } } }

/-- The event with all fields zero, as `var event SSHLoginEvent` declares it. -/
def zeroEvent : SSHLoginEvent :=
  { Username := [], IP := [], Port := [], Timestamp := 0, Status := [], Method := [],
    TTY := [], SessionID := [] }

/-- A decoder for the examples: `{}` decodes to the zero event, the text
`{"username":"alice","timestamp":42,"status":"failed"}` to the event with these
three fields, and nothing else decodes. -/
def sampleUnmarshal (data : Bytes) : Except GoError SSHLoginEvent :=
  if data = [Char.ofNat 123, Char.ofNat 125] then .ok zeroEvent
  else if data = "\x7b\"username\":\"alice\",\"timestamp\":42,\"status\":\"failed\"\x7d".toList then
    .ok { zeroEvent with Username := "alice".toList, Timestamp := 42, Status := "failed".toList }
  else .error (.errorString "invalid character")

/-- The environment in which only `PAM_USER=alice` and
`SSH_CONNECTION=10.0.0.5 54321 10.0.0.1 22` are set. -/
def aliceEnv (name : GoString) : GoString :=
  if name = "PAM_USER".toList then "alice".toList
  else if name = "SSH_CONNECTION".toList then "10.0.0.5 54321 10.0.0.1 22".toList
  else []

/-- The machine `freshWorld` with an sshd config that disables PAM on a line
with a trailing comment. -/
def commentWorld : World :=
  { freshWorld with sshd := some "Port 22\nUsePAM no # yes would enable PAM\n".toList }

/-- An `Install` in which the hook path does not take symbolic links, so that
the executable is copied there, and the backup rename of the PAM file then
fails. -/
def copyThenPamFails : InstallFaults :=
  { noInstallFaults with
    hook := { noHookFaults with
      symlink := some (.linkError "symlink" "/opt/pika/pika-agent".toList HookBinaryPath
        (.errno .EPERM)) }
    pam := { noRewriteFaults with
      rename := some (.linkError "rename" PAMConfigFile (PAMConfigFile ++ ".bak".toList)
        (.errno Errno.EIO)) } }

/-- An `Install` in which the hook is linked and the backup rename of the PAM
file then fails. -/
def linkThenPamFails : InstallFaults :=
  { noInstallFaults with
    pam := { noRewriteFaults with
      rename := some (.linkError "rename" PAMConfigFile (PAMConfigFile ++ ".bak".toList)
        (.errno Errno.EIO)) } }

/-- Outcomes of the restart commands on a machine without systemd whose init
script is named `sshd`: only `service sshd restart` succeeds. -/
def onlyServiceSshd (cmd : Command) : Option GoError :=
  if cmd = serviceSshdRestart then none else some (.errorString "exit status 1")

/-! ## Properties -/

theorem hook_ne_legacy : pamConfigLine ≠ legacyPamConfigLine := by decide

theorem pamLoop_foldl (add : Bool) (lines : List GoString) :
    ∀ (acc : List GoString) (fnd : Bool),
      lines.foldl (pamLoopStep add) (acc, fnd) =
        (acc ++ lines.filter (fun l => !isLegacyLine l && (add || !isHookLine l)),
          fnd || lines.any isHookLine) := by
  induction lines with
  | nil => intro acc fnd; simp
  | cons l ls ih =>
    intro acc fnd
    rw [List.foldl_cons]
    by_cases h1 : trimSpace l = legacyPamConfigLine
    · have h2 : trimSpace l ≠ pamConfigLine := fun h => hook_ne_legacy (h.symm.trans h1)
      have b1 : isLegacyLine l = true := by simp [isLegacyLine, h1]
      have b2 : isHookLine l = false := by
        simp only [isHookLine, beq_eq_false_iff_ne]; exact h2
      simp [pamLoopStep, h1, ih, b1, b2, hook_ne_legacy.symm]
    · have b1 : isLegacyLine l = false := by
        simp only [isLegacyLine, beq_eq_false_iff_ne]; exact h1
      by_cases h2 : trimSpace l = pamConfigLine
      · have b2 : isHookLine l = true := by simp [isHookLine, h2]
        cases add <;> simp [pamLoopStep, h1, h2, ih, b1, b2, hook_ne_legacy]
      · have b2 : isHookLine l = false := by
          simp only [isHookLine, beq_eq_false_iff_ne]; exact h2
        simp [pamLoopStep, h1, h2, ih, b1, b2]

theorem pamNewLines_remove (lines : List GoString) :
    pamNewLines false lines = lines.filter (fun l => !isLegacyLine l && !isHookLine l) := by
  simp [pamNewLines, pamLoop_foldl]

theorem pamNewLines_add (lines : List GoString) :
    pamNewLines true lines =
      lines.filter (fun l => !isLegacyLine l) ++
        (if lines.any isHookLine then [] else [pamConfigLine]) := by
  simp only [pamNewLines, pamLoop_foldl]
  cases h : lines.any isHookLine <;> simp

theorem rawLines_append_newline (l rest : List Char) (h : '\n' ∉ l) :
    rawLines (l ++ '\n' :: rest) = l :: rawLines rest := by
  induction l with
  | nil => simp [rawLines]
  | cons c cs ih =>
    have hc : c ≠ '\n' := fun e => h (by simp [e])
    have hcs : '\n' ∉ cs := fun e => h (List.mem_cons_of_mem _ e)
    simp [rawLines, hc, ih hcs]

theorem rawLines_render (ls : List GoString) (h : ∀ l ∈ ls, '\n' ∉ l) :
    rawLines (render ls) = ls := by
  induction ls with
  | nil => rfl
  | cons l ls ih =>
    have h1 : '\n' ∉ l := h l (List.mem_cons_self _ _)
    have h2 : ∀ x ∈ ls, '\n' ∉ x := fun x hx => h x (List.mem_cons_of_mem _ hx)
    simp [render, rawLines_append_newline l (render ls) h1, ih h2]

theorem rawLines_no_newline (content : Bytes) : ∀ t ∈ rawLines content, '\n' ∉ t := by
  induction content with
  | nil => simp [rawLines]
  | cons c cs ih =>
    by_cases hc : c = '\n'
    · intro t ht
      simp only [rawLines, hc, if_true, List.mem_cons] at ht
      rcases ht with rfl | ht
      · simp
      · exact ih t ht
    · intro t ht
      simp only [rawLines, hc, if_false] at ht
      cases hr : rawLines cs with
      | nil =>
        rw [hr] at ht
        simp only [List.mem_singleton] at ht
        subst ht
        simpa using fun e => hc e.symm
      | cons l ls =>
        rw [hr] at ht ih
        simp only [List.mem_cons] at ht
        rcases ht with rfl | ht
        · have := ih l (List.mem_cons_self _ _)
          simp only [List.mem_cons, not_or]
          exact ⟨fun e => hc e.symm, this⟩
        · exact ih t (List.mem_cons_of_mem _ ht)

theorem mem_dropCR {x : Char} {t : List Char} (h : x ∈ dropCR t) : x ∈ t := by
  unfold dropCR at h
  split at h
  · exact List.mem_of_mem_dropLast h
  · exact h

theorem dropCR_eq_self {t : List Char} (h : endsInCR t = false) : dropCR t = t := by
  unfold dropCR
  have : t.getLast? ≠ some '\r' := by
    simpa [endsInCR] using h
  simp [this]

theorem byteLen_append (a b : List Char) : byteLen (a ++ b) = byteLen a + byteLen b := by
  simp [byteLen]

theorem byteLen_dropCR_le (t : List Char) : byteLen (dropCR t) ≤ byteLen t := by
  unfold dropCR
  split
  · rename_i h
    obtain ⟨ys, hys⟩ : ∃ ys, t = ys ++ ['\r'] := by
      rcases List.eq_nil_or_concat t with rfl | ⟨ys, y, rfl⟩
      · simp at h
      · simp at h; subst h; exact ⟨ys, by simp⟩
    subst hys
    simp [byteLen_append]
  · exact le_refl _

theorem trimSpace_dropCR (t : List Char) : trimSpace (dropCR t) = trimSpace t := by
  unfold dropCR
  split
  · rename_i h
    obtain ⟨ys, hys⟩ : ∃ ys, t = ys ++ ['\r'] := by
      rcases List.eq_nil_or_concat t with rfl | ⟨ys, y, rfl⟩
      · simp at h
      · simp at h; subst h; exact ⟨ys, by simp⟩
    subst hys
    have hs : isSpace '\r' = true := by decide
    simp [trimSpace, List.rdropWhile_concat_pos, hs]
  · rfl

theorem scanTokens_of_short (ts : List (List Char))
    (h : ∀ t ∈ ts, byteLen t < maxScanTokenSize) :
    scanTokens ts = (ts.map dropCR, none) := by
  induction ts with
  | nil => rfl
  | cons t ts ih =>
    have h1 : ¬ maxScanTokenSize ≤ byteLen t := not_le.mpr (h t (List.mem_cons_self _ _))
    have h2 := ih (fun x hx => h x (List.mem_cons_of_mem _ hx))
    simp [scanTokens, h1, h2]

theorem short_of_scanTokens (ts : List (List Char)) (h : (scanTokens ts).2 = none) :
    ∀ t ∈ ts, byteLen t < maxScanTokenSize := by
  induction ts with
  | nil => simp
  | cons t ts ih =>
    by_cases h1 : maxScanTokenSize ≤ byteLen t
    · simp [scanTokens, h1] at h
    · simp only [scanTokens, h1, if_false] at h
      intro x hx
      rcases List.mem_cons.mp hx with rfl | hx
      · exact not_le.mp h1
      · exact ih h x hx

/-- A scan that ends without error yields every token, each with its carriage
return dropped. -/
theorem scanLines_of_ok (content : Bytes) (h : (scanLines content).2 = none) :
    (scanLines content).1 = (rawLines content).map dropCR := by
  unfold scanLines at h ⊢
  rw [scanTokens_of_short _ (short_of_scanTokens _ h)]

/-- The lines of a scan without error have no newline and fit the buffer. -/
theorem scanLines_lines_ok (content : Bytes) (h : (scanLines content).2 = none) :
    ∀ l ∈ (scanLines content).1, '\n' ∉ l ∧ byteLen l < maxScanTokenSize := by
  intro l hl
  rw [scanLines_of_ok content h] at hl
  obtain ⟨t, ht, rfl⟩ := List.mem_map.mp hl
  refine ⟨fun hm => rawLines_no_newline content t ht (mem_dropCR hm), ?_⟩
  exact lt_of_le_of_lt (byteLen_dropCR_le t) (short_of_scanTokens _ h t ht)

/-- Reading back what the writer wrote. -/
theorem scanLines_render (ls : List GoString)
    (h : ∀ l ∈ ls, '\n' ∉ l ∧ byteLen l < maxScanTokenSize) :
    scanLines (render ls) = (ls.map dropCR, none) := by
  unfold scanLines
  rw [rawLines_render ls (fun l hl => (h l hl).1)]
  exact scanTokens_of_short ls (fun l hl => (h l hl).2)

theorem isHookLine_dropCR (l : GoString) : isHookLine (dropCR l) = isHookLine l := by
  simp [isHookLine, trimSpace_dropCR]

theorem isLegacyLine_dropCR (l : GoString) : isLegacyLine (dropCR l) = isLegacyLine l := by
  simp [isLegacyLine, trimSpace_dropCR]

theorem isHookLine_pamConfigLine : isHookLine pamConfigLine = true := by decide

theorem isLegacyLine_pamConfigLine : isLegacyLine pamConfigLine = false := by decide

theorem pamConfigLine_line_ok :
    '\n' ∉ pamConfigLine ∧ byteLen pamConfigLine < maxScanTokenSize := by decide

theorem dropCR_pamConfigLine : dropCR pamConfigLine = pamConfigLine := by decide

/-- A successful `modifyPAMConfig` has read the whole file and replaced it by
the new lines; the old content is in the backup. -/
theorem modifyPAMConfig_ok (add : Bool) (f : RewriteFaults) (w : World)
    (h : (modifyPAMConfig add f w).1 = none) :
    ∃ content, w.pam = some content ∧ (scanLines content).2 = none ∧
      (modifyPAMConfig add f w).2 =
        { w with pam := some (render (pamNewLines add (scanLines content).1)),
                 pamBak := some content } := by
  cases hp : w.pam with
  | none => simp [modifyPAMConfig, hp] at h
  | some content =>
    refine ⟨content, rfl, ?_⟩
    unfold modifyPAMConfig at h ⊢
    simp only [hp] at h ⊢
    rcases hs : scanLines content with ⟨lines, _ | err⟩
    · simp only [hs] at h ⊢
      rcases f with ⟨_ | e1, _ | e2, _ | ⟨n, e3⟩, r⟩ <;> simp at h ⊢
    · simp [hs] at h

/-- The result of `restartSSHD` in closed form. -/
theorem restartSSHD_eq (run : Command → Option GoError) (w : World) :
    restartSSHD run w =
      (if ∀ c ∈ restartCommands, run c ≠ none then
          some (.errorString "无法找到合适的方式重启 sshd 服务") else none,
        { w with commands := w.commands ++ attempted run restartCommands }) := by
  unfold restartSSHD runCommand restartCommands
  cases h1 : run systemctlRestartSshd <;> cases h2 : run serviceSshdRestart <;>
  cases h3 : run systemctlRestartSsh <;> cases h4 : run serviceSshRestart <;>
  simp [attempted, h1, h2, h3, h4]

theorem attempted_isPrefix (run : Command → Option GoError) (cmds : List Command) :
    attempted run cmds <+: cmds := by
  induction cmds with
  | nil => simp [attempted]
  | cons c cs ih =>
    unfold attempted
    split
    · exact ⟨cs, rfl⟩
    · exact (List.prefix_cons_inj c).mpr ih

/-- Function `ensureUsePAM` changes nothing but the sshd config, its backup and
the list of commands run. -/
theorem ensureUsePAM_frame (f : RewriteFaults) (run : Command → Option GoError) (w : World) :
    (ensureUsePAM f run w).2.euid = w.euid ∧ (ensureUsePAM f run w).2.pam = w.pam ∧
    (ensureUsePAM f run w).2.pamBak = w.pamBak ∧ (ensureUsePAM f run w).2.hook = w.hook ∧
    (ensureUsePAM f run w).2.execPath = w.execPath ∧
    (ensureUsePAM f run w).2.execContent = w.execContent := by
  unfold ensureUsePAM
  cases hp : w.sshd with
  | none => simp
  | some content =>
    rcases hs : scanLines content with ⟨lines, _ | err⟩
    · rcases f with ⟨_ | e1, _ | e2, _ | ⟨n, e3⟩, _ | e4⟩ <;>
        cases hb : (usePAMLoop lines).2 <;> simp [hs, hb, restoreSSHD, restartSSHD_eq]
    · simp [hs]

theorem copyFile_frame (f : HookFaults) (w : World) :
    ∃ h, (copyFile f w).2 = { w with hook := h } := by
  obtain ⟨euid, ep, ec, pam, pamBak, sshd, sshdBak, hook, sd, sock, cmds⟩ := w
  unfold copyFile
  rcases hook with _ | ⟨b⟩ | ⟨t⟩ <;>
    cases f.openSrc <;> cases f.createDst <;> rcases f.copy with _ | ⟨n, e⟩ <;>
    cases f.chmod <;> exact ⟨_, rfl⟩

/-- Function `ensureHookBinary` changes nothing but the entry at the hook path. -/
theorem ensureHookBinary_frame (f : HookFaults) (w : World) :
    ∃ h, (ensureHookBinary f w).2 = { w with hook := h } := by
  unfold ensureHookBinary
  split
  · exact ⟨w.hook, rfl⟩
  · split
    · exact ⟨w.hook, rfl⟩
    · split
      · exact ⟨w.hook, rfl⟩
      · split
        · exact ⟨w.hook, rfl⟩
        · cases f.remove with
          | none =>
            simp only
            split
            · exact ⟨_, rfl⟩
            · obtain ⟨h, hh⟩ := copyFile_frame f { w with hook := none }
              exact ⟨h, hh⟩
          | some e =>
            simp only
            split
            · exact ⟨_, rfl⟩
            · exact copyFile_frame f w

theorem ensureHookBinary_keeps (f : HookFaults) (w : World) :
    (ensureHookBinary f w).2.euid = w.euid ∧ (ensureHookBinary f w).2.pam = w.pam ∧
    (ensureHookBinary f w).2.pamBak = w.pamBak ∧ (ensureHookBinary f w).2.sshd = w.sshd ∧
    (ensureHookBinary f w).2.sshdBak = w.sshdBak := by
  obtain ⟨h, hh⟩ := ensureHookBinary_frame f w
  rw [hh]
  exact ⟨rfl, rfl, rfl, rfl, rfl⟩

theorem modifyPAMConfig_ok_fields (add : Bool) (f : RewriteFaults) (w : World)
    (h : (modifyPAMConfig add f w).1 = none) :
    ∃ content, w.pam = some content ∧ (scanLines content).2 = none ∧
      (modifyPAMConfig add f w).2.pam = some (render (pamNewLines add (scanLines content).1)) ∧
      (modifyPAMConfig add f w).2.euid = w.euid ∧ (modifyPAMConfig add f w).2.hook = w.hook ∧
      (modifyPAMConfig add f w).2.sshd = w.sshd := by
  obtain ⟨content, h1, h2, h3⟩ := modifyPAMConfig_ok add f w h
  refine ⟨content, h1, h2, ?_⟩
  rw [h3]
  exact ⟨rfl, rfl, rfl, rfl⟩

/-- A successful `Install` ran as root, and either found the hook installed and
changed nothing, or rewrote the PAM file from the lines it read. -/
theorem Install_ok_cases (f : InstallFaults) (w : World) (h : (Install f w).1 = none) :
    w.euid = 0 ∧ (Install f w).2.euid = 0 ∧
    ((isInstalled w = true ∧ (Install f w).2 = w) ∨
     (isInstalled w = false ∧ ∃ content, w.pam = some content ∧ (scanLines content).2 = none ∧
        (Install f w).2.pam = some (render (pamNewLines true (scanLines content).1)))) := by
  unfold Install at h ⊢
  by_cases h0 : w.euid = 0
  · by_cases hi : isInstalled w = true
    · simp [h0, hi]
    · have hi2 : isInstalled w = false := by simpa using hi
      simp only [h0, hi2, ne_eq, not_true_eq_false, if_false, Bool.false_eq_true] at h ⊢
      have fr1 := ensureUsePAM_frame f.sshd f.run w
      rcases h1 : ensureUsePAM f.sshd f.run w with ⟨_ | e1, w1⟩
      · rw [h1] at fr1
        simp only [h1] at h ⊢
        have fr2 := ensureHookBinary_keeps f.hook w1
        rcases h2 : ensureHookBinary f.hook w1 with ⟨_ | e2, w2⟩
        · rw [h2] at fr2
          simp only [h2] at h ⊢
          rcases h3 : modifyPAMConfig true f.pam w2 with ⟨_ | e3, w3⟩
          · have hm := modifyPAMConfig_ok_fields true f.pam w2 (by rw [h3])
            rw [h3] at hm
            obtain ⟨content, hc1, hc2, hc3, hc4, -⟩ := hm
            simp only at fr1 fr2 hc3 hc4
            refine ⟨trivial, ?_, Or.inr ⟨trivial, content, ?_, hc2, hc3⟩⟩
            · rw [hc4, fr2.1, fr1.1, h0]
            · rw [← fr1.2.1, ← fr2.2.1]; exact hc1
          · simp [h3] at h
        · simp [h2] at h
      · simp [h1] at h
  · simp [h0] at h

theorem isInstalled_of_pam (w : World) (content : Bytes) (h : w.pam = some content) :
    isInstalled w = (scanLines content).1.any isHookLine := by
  unfold isInstalled
  rw [h]
  rfl

theorem isLegacyLine_of_isHookLine {l : GoString} (h : isHookLine l = true) :
    isLegacyLine l = false := by
  simp only [isHookLine, beq_iff_eq] at h
  simp only [isLegacyLine, beq_eq_false_iff_ne, h]
  exact hook_ne_legacy

/-- The lines written by `modifyPAMConfig(true)` are well-formed lines and
contain the hook line. -/
theorem pamNewLines_add_ok (lines : List GoString)
    (h : ∀ l ∈ lines, '\n' ∉ l ∧ byteLen l < maxScanTokenSize) :
    (∀ l ∈ pamNewLines true lines, '\n' ∉ l ∧ byteLen l < maxScanTokenSize) ∧
    (pamNewLines true lines).any isHookLine = true := by
  rw [pamNewLines_add]
  constructor
  · intro l hl
    rcases List.mem_append.mp hl with hl | hl
    · exact h l (List.mem_of_mem_filter hl)
    · split at hl
      · simp at hl
      · simp only [List.mem_singleton] at hl
        subst hl
        exact pamConfigLine_line_ok
  · cases ha : lines.any isHookLine
    · simp [isHookLine_pamConfigLine]
    · obtain ⟨l, hl, hk⟩ := List.any_eq_true.mp ha
      simp only [ite_true, List.append_nil, Bool.true_eq_false, if_false]
      apply List.any_eq_true.mpr
      refine ⟨l, List.mem_filter.mpr ⟨hl, ?_⟩, hk⟩
      simp [isLegacyLine_of_isHookLine hk]

theorem any_isHookLine_map_dropCR (ls : List GoString) :
    (ls.map dropCR).any isHookLine = ls.any isHookLine := by
  induction ls with
  | nil => rfl
  | cons l ls ih => simp [isHookLine_dropCR, ih]

/-- The PAM file that `modifyPAMConfig(true)` writes passes the installed check. -/
theorem isInstalled_after_add (w : World) (content : Bytes)
    (hs : (scanLines content).2 = none)
    (hw : w.pam = some (render (pamNewLines true (scanLines content).1))) :
    isInstalled w = true := by
  have hok := pamNewLines_add_ok _ (scanLines_lines_ok content hs)
  rw [isInstalled_of_pam w _ hw, scanLines_render _ hok.1]
  simp only
  rw [any_isHookLine_map_dropCR]
  exact hok.2

/-- After a successful `Install` the hook counts as installed. -/
theorem isInstalled_after_Install (f : InstallFaults) (w : World)
    (h : (Install f w).1 = none) : isInstalled (Install f w).2 = true := by
  obtain ⟨-, -, hc⟩ := Install_ok_cases f w h
  rcases hc with ⟨h1, h2⟩ | ⟨-, content, -, hs, hp⟩
  · rw [h2]; exact h1
  · exact isInstalled_after_add _ content hs hp

/-- C3: `Install` is idempotent.  If a first `Install` succeeds, the PAM file
passes the installed check, and a second `Install` right after it, whatever
faults are injected into it, succeeds and changes nothing: the PAM file, the
sshd config and all the rest of the state are as the first call left them. -/
theorem Install_idempotent (f1 f2 : InstallFaults) (w : World)
    (h : (Install f1 w).1 = none) :
    isInstalled (Install f1 w).2 = true ∧
    Install f2 (Install f1 w).2 = (none, (Install f1 w).2) := by
  have hi := isInstalled_after_Install f1 w h
  obtain ⟨-, h0, -⟩ := Install_ok_cases f1 w h
  refine ⟨hi, ?_⟩
  generalize (Install f1 w).2 = w1 at hi h0
  unfold Install
  simp [h0, hi]

theorem removeHookBinary_keeps (remove : Option GoError) (w : World) :
    (removeHookBinary remove w).euid = w.euid ∧ (removeHookBinary remove w).pam = w.pam ∧
    (removeHookBinary remove w).pamBak = w.pamBak ∧ (removeHookBinary remove w).sshd = w.sshd ∧
    (removeHookBinary remove w).sshdBak = w.sshdBak := by
  unfold removeHookBinary
  rcases w.hook with _ | ⟨b⟩ | ⟨t⟩ <;> cases remove <;> exact ⟨rfl, rfl, rfl, rfl, rfl⟩

theorem map_dropCR_eq_self (ls : List GoString) (h : ∀ l ∈ ls, endsInCR l = false) :
    ls.map dropCR = ls := by
  induction ls with
  | nil => rfl
  | cons l ls ih =>
    rw [List.map_cons, dropCR_eq_self (h l (List.mem_cons_self _ _)),
      ih (fun x hx => h x (List.mem_cons_of_mem _ hx))]

theorem endsInCR_pamConfigLine : endsInCR pamConfigLine = false := by decide

/-- Removing after adding: the filter of `modifyPAMConfig(false)` undoes what
`modifyPAMConfig(true)` appended. -/
theorem pamNewLines_remove_add (lines : List GoString) :
    pamNewLines false (pamNewLines true lines) = pamNewLines false lines := by
  rw [pamNewLines_remove, pamNewLines_remove, pamNewLines_add, List.filter_append,
    List.filter_filter]
  have h1 : List.filter (fun l => !isLegacyLine l && !isHookLine l)
      (if lines.any isHookLine = true then [] else [pamConfigLine]) = [] := by
    split
    · rfl
    · simp [List.filter, isHookLine_pamConfigLine, isLegacyLine_pamConfigLine]
  rw [h1, List.append_nil]
  congr 1
  funext l
  cases isLegacyLine l <;> cases isHookLine l <;> rfl

theorem endsInCR_pamNewLines_add (lines : List GoString)
    (h : ∀ l ∈ lines, endsInCR l = false) : ∀ l ∈ pamNewLines true lines, endsInCR l = false := by
  rw [pamNewLines_add]
  intro l hl
  rcases List.mem_append.mp hl with hl | hl
  · exact h l (List.mem_of_mem_filter hl)
  · split at hl
    · simp at hl
    · simp only [List.mem_singleton] at hl
      subst hl
      exact endsInCR_pamConfigLine

/-- The lines of the PAM file after a successful `modifyPAMConfig(false)`. -/
theorem modifyPAMConfig_remove_lines (f : RewriteFaults) (w : World)
    (h : (modifyPAMConfig false f w).1 = none) :
    ∃ content final, w.pam = some content ∧ (scanLines content).2 = none ∧
      (modifyPAMConfig false f w).2.pam = some final ∧
      scanLines final =
        (((scanLines content).1.filter fun l => !isLegacyLine l && !isHookLine l).map dropCR,
          none) := by
  obtain ⟨content, h1, h2, h3, -⟩ := modifyPAMConfig_ok_fields false f w h
  refine ⟨content, _, h1, h2, h3, ?_⟩
  rw [pamNewLines_remove]
  exact scanLines_render _
    (fun l hl => scanLines_lines_ok content h2 l (List.mem_of_mem_filter hl))

/-- C1 (amended): when `Install` succeeds and the PAM rewrite of the `Uninstall`
that follows succeeds, the resulting PAM file has no line that is, trimmed,
the hook directive; and if no line of the original file, as read, still ends
in a carriage return, its lines are exactly the original lines that are
neither the hook directive nor the legacy directive, unchanged and in order. -/
theorem Uninstall_after_Install (fi : InstallFaults) (fu : UninstallFaults) (w : World)
    (content : Bytes) (hp : w.pam = some content)
    (hi : (Install fi w).1 = none)
    (hu : (modifyPAMConfig false fu.pam (Install fi w).2).1 = none) :
    ∃ final, (Uninstall fu (Install fi w).2).2.pam = some final ∧
      (scanLines final).2 = none ∧
      (∀ l ∈ (scanLines final).1, trimSpace l ≠ pamConfigLine) ∧
      ((∀ l ∈ (scanLines content).1, endsInCR l = false) →
        (scanLines final).1 =
          (scanLines content).1.filter fun l => !isLegacyLine l && !isHookLine l) := by
  obtain ⟨c1, final, hc1, hs1, hfin, hscan⟩ := modifyPAMConfig_remove_lines fu.pam _ hu
  refine ⟨final, ?_, ?_, ?_, ?_⟩
  · unfold Uninstall
    rw [(removeHookBinary_keeps _ _).2.1]
    exact hfin
  · rw [hscan]
  · intro l hl
    rw [hscan] at hl
    obtain ⟨l1, hl1, rfl⟩ := List.mem_map.mp hl
    have hk := (List.mem_filter.mp hl1).2
    rw [trimSpace_dropCR]
    intro he
    have : isHookLine l1 = true := by simp [isHookLine, he]
    simp [this] at hk
  · intro hclean
    rw [hscan]
    obtain ⟨-, -, hc⟩ := Install_ok_cases fi w hi
    rcases hc with ⟨-, h2⟩ | ⟨-, c0, hc0, hs0, hp0⟩
    · rw [h2, hp] at hc1
      cases hc1
      exact map_dropCR_eq_self _ (fun l hl => hclean l (List.mem_of_mem_filter hl))
    · rw [hp] at hc0
      cases hc0
      rw [hp0] at hc1
      cases hc1
      have hok := pamNewLines_add_ok _ (scanLines_lines_ok content hs0)
      have hcr := endsInCR_pamNewLines_add _ hclean
      rw [scanLines_render _ hok.1]
      simp only
      rw [map_dropCR_eq_self _ hcr, ← pamNewLines_remove, pamNewLines_remove_add,
        pamNewLines_remove]
      exact map_dropCR_eq_self _ (fun l hl => hclean l (List.mem_of_mem_filter hl))

set_option maxRecDepth 100000 in
/-- Witness of `Uninstall_after_Install`: the machine `freshWorld`, no faults. -/
theorem Uninstall_after_Install_witness :
    ∃ final, (Uninstall noUninstallFaults (Install noInstallFaults freshWorld).2).2.pam =
        some final ∧
      (scanLines final).2 = none ∧
      (∀ l ∈ (scanLines final).1, trimSpace l ≠ pamConfigLine) ∧
      ((∀ l ∈ (scanLines "auth include system-auth\nsession required pam_limits.so\n".toList).1,
          endsInCR l = false) →
        (scanLines final).1 =
          (scanLines "auth include system-auth\nsession required pam_limits.so\n".toList).1.filter
            fun l => !isLegacyLine l && !isHookLine l) :=
  Uninstall_after_Install noInstallFaults noUninstallFaults freshWorld _ rfl
    (by decide) (by decide)

set_option maxRecDepth 100000 in
/-- C1 as stated fails on a PAM file whose one line ends in two carriage returns
before the newline.  `Install` and the `Uninstall` after it both succeed, the
line is neither the hook nor the legacy directive, and the file ends up with
the line `session required pam_limits.so`, while the original line, as read,
is that text followed by a carriage return: the line is not unchanged. -/
theorem Uninstall_after_Install_changes_line :
    crWorld.pam = some "session required pam_limits.so\r\r\n".toList ∧
    (Install noInstallFaults crWorld).1 = none ∧
    (modifyPAMConfig false noRewriteFaults (Install noInstallFaults crWorld).2).1 = none ∧
    (Uninstall noUninstallFaults (Install noInstallFaults crWorld).2).2.pam =
      some "session required pam_limits.so\n".toList ∧
    (scanLines "session required pam_limits.so\n".toList).1 =
      ["session required pam_limits.so".toList] ∧
    ((scanLines "session required pam_limits.so\r\r\n".toList).1.filter
      fun l => !isLegacyLine l && !isHookLine l) = ["session required pam_limits.so\r".toList] ∧
    (scanLines "session required pam_limits.so\n".toList).1 ≠
      ((scanLines "session required pam_limits.so\r\r\n".toList).1.filter
        fun l => !isLegacyLine l && !isHookLine l) := by
  decide

/-- C2 (amended): when a rewrite returns an error, the content at the target
path is the content before the call, provided the rename that puts the backup
back succeeds whenever the backup rename has succeeded.  This holds for the PAM
file in `modifyPAMConfig` and for the sshd config in `ensureUsePAM`, whichever
call failed: the backup rename, the creation of the new file, the write or
flush (after any number of bytes written), or the opening or scanning before
them. -/
theorem rewrite_failure_keeps_content (add : Bool) (f : RewriteFaults)
    (run : Command → Option GoError) (w : World)
    (hrestore : f.rename = none → f.restore = none) :
    ((modifyPAMConfig add f w).1 ≠ none → (modifyPAMConfig add f w).2.pam = w.pam) ∧
    ((ensureUsePAM f run w).1 ≠ none → (ensureUsePAM f run w).2.sshd = w.sshd) := by
  constructor
  · unfold modifyPAMConfig
    cases hp : w.pam with
    | none => simp [hp]
    | some content =>
      rcases hs : scanLines content with ⟨lines, _ | err⟩
      · rcases f with ⟨_ | e1, _ | e2, _ | ⟨n, e3⟩, _ | e4⟩ <;>
          simp [hs, hp, restorePAM] at hrestore ⊢
      · simp [hs, hp]
  · unfold ensureUsePAM
    cases hp : w.sshd with
    | none => simp [hp]
    | some content =>
      rcases hs : scanLines content with ⟨lines, _ | err⟩
      · rcases f with ⟨_ | e1, _ | e2, _ | ⟨n, e3⟩, _ | e4⟩ <;>
          cases hb : (usePAMLoop lines).2 <;>
          simp [hs, hp, hb, restoreSSHD] at hrestore ⊢
      · simp [hs, hp]

set_option maxRecDepth 100000 in
/-- Witness of `rewrite_failure_keeps_content`: the write of the PAM file fails
after 10 bytes, the rewrite returns an error, and the file has its old
content. -/
theorem rewrite_failure_keeps_content_witness :
    (modifyPAMConfig true (flushFails PAMConfigFile) freshWorld).1 ≠ none ∧
    ((flushFails PAMConfigFile).rename = none → (flushFails PAMConfigFile).restore = none) ∧
    ((modifyPAMConfig true (flushFails PAMConfigFile) freshWorld).1 ≠ none →
      (modifyPAMConfig true (flushFails PAMConfigFile) freshWorld).2.pam = freshWorld.pam) ∧
    ((ensureUsePAM (flushFails PAMConfigFile) (fun _ => none) freshWorld).1 ≠ none →
      (ensureUsePAM (flushFails PAMConfigFile) (fun _ => none) freshWorld).2.sshd =
        freshWorld.sshd) :=
  ⟨by decide, fun _ => rfl,
    rewrite_failure_keeps_content true (flushFails PAMConfigFile) (fun _ => none) freshWorld
      (fun _ => rfl)⟩

set_option maxRecDepth 100000 in
/-- C2 as stated fails when the rename that puts the backup back fails too: the
creation of the new file fails, the rewrite returns that error, and nothing is
left at the target path, for the PAM file and for the sshd config alike. -/
theorem rewrite_failure_loses_file :
    freshWorld.pam = some "auth include system-auth\nsession required pam_limits.so\n".toList ∧
    (modifyPAMConfig true (turnsReadOnly PAMConfigFile) freshWorld).1 =
      some (.pathError "open" PAMConfigFile (.errno .EROFS)) ∧
    (modifyPAMConfig true (turnsReadOnly PAMConfigFile) freshWorld).2.pam = none ∧
    freshWorld.sshd = some "Port 22\nUsePAM no\n".toList ∧
    (ensureUsePAM (turnsReadOnly SSHDConfigFile) (fun _ => none) freshWorld).1 =
      some (.pathError "open" SSHDConfigFile (.errno .EROFS)) ∧
    (ensureUsePAM (turnsReadOnly SSHDConfigFile) (fun _ => none) freshWorld).2.sshd = none := by
  decide

set_option maxRecDepth 100000 in
/-- Witness of `Install_idempotent`: on the machine `freshWorld` the first
`Install` rewrites both files and succeeds. -/
theorem Install_idempotent_witness :
    (Install noInstallFaults freshWorld).1 = none ∧
    isInstalled (Install noInstallFaults freshWorld).2 = true ∧
    Install noInstallFaults (Install noInstallFaults freshWorld).2 =
      (none, (Install noInstallFaults freshWorld).2) :=
  ⟨by decide, Install_idempotent noInstallFaults noInstallFaults freshWorld (by decide)⟩

/-- Every error that `Install` returns is a `fmt.Errorf` wrapper, which
`os.IsPermission` does not look into. -/
theorem Install_error_not_permission (f : InstallFaults) (w : World) (err : GoError)
    (h : (Install f w).1 = some err) : osIsPermission err = false := by
  unfold Install at h
  split at h
  · simp only [Option.some.injEq] at h
    subst h
    rfl
  · split at h
    · simp at h
    · split at h
      · simp only [Option.some.injEq] at h
        subst h
        rfl
      · split at h
        · simp only [Option.some.injEq] at h
          subst h
          rfl
        · split at h
          · simp only [Option.some.injEq] at h
            subst h
            rfl
          · simp at h

theorem stopInternal_enabled (f : StopFaults) (m : Monitor) (w : World) :
    (stopInternal f m w).2.1.enabled = false := by
  unfold stopInternal
  cases h : m.enabled <;> simp [h]

/-- What `Start` does once the socket is set up: it returns the result of
`Install`, whatever the reason of a failure, and the monitor is running
exactly when that result is success. -/
theorem Start_returns_Install_result (config : SSHLoginConfig) (f : StartFaults) (m : Monitor)
    (w : World) (hen : config.Enabled = true)
    (hs : (initSocket f.socket
        (if m.enabled then stopInternal f.restart m w else (none, m, w)).2.1
        (if m.enabled then stopInternal f.restart m w else (none, m, w)).2.2).1 = none) :
    (Start "linux".toList config f m w).1 =
      (Install f.install (initSocket f.socket
        (if m.enabled then stopInternal f.restart m w else (none, m, w)).2.1
        (if m.enabled then stopInternal f.restart m w else (none, m, w)).2.2).2.2).1 ∧
    ((Start "linux".toList config f m w).2.1.enabled = true ↔
      (Start "linux".toList config f m w).1 = none) := by
  unfold Start
  generalize (if m.enabled then stopInternal f.restart m w else (none, m, w)) = s0 at hs ⊢
  simp only [ne_eq, not_true_eq_false, if_false, hen, Bool.not_true, Bool.false_eq_true]
  rcases hi : initSocket f.socket s0.2.1 s0.2.2 with ⟨_ | e, m1, w1⟩
  · simp only
    rcases hn : Install f.install w1 with ⟨_ | err, w2⟩
    · simp
    · have hp := Install_error_not_permission f.install w1 err (by rw [hn])
      simp [hp, stopInternal_enabled]
  · rw [hi] at hs
    simp at hs

set_option maxRecDepth 100000 in
/-- C4 at the failing input: the agent runs as user 1000 on Linux, monitoring is
enabled, the monitor is new and the socket setup succeeds.  `Install` fails
with its permission-denied error, which `errors.Is` recognises as
`os.ErrPermission` and `os.IsPermission` does not; `Start` returns that error
and the monitor is stopped. -/
theorem Start_not_root_stops :
    userWorld.euid = 1000 ∧
    (initSocket userStartFaults.socket NewMonitor userWorld).1 = none ∧
    (Install userStartFaults.install
      (initSocket userStartFaults.socket NewMonitor userWorld).2.2).1 =
      some (.wrapError ": 安装 PAM Hook 需要 root 权限" (.sentinel .ErrPermission)) ∧
    errorsIs (.wrapError ": 安装 PAM Hook 需要 root 权限" (.sentinel .ErrPermission))
      .ErrPermission = true ∧
    osIsPermission (.wrapError ": 安装 PAM Hook 需要 root 权限" (.sentinel .ErrPermission)) =
      false ∧
    (Start "linux".toList { Enabled := true } userStartFaults NewMonitor userWorld).1 =
      some (.wrapError ": 安装 PAM Hook 需要 root 权限" (.sentinel .ErrPermission)) ∧
    (Start "linux".toList { Enabled := true } userStartFaults NewMonitor userWorld).2.1.enabled =
      false := by
  decide

theorem backfill_eq_expectedEvent (e : SSHLoginEvent) (now : Int) :
    backfill e now = expectedEvent e now := by
  obtain ⟨u, ip, port, ts, st, me, tty, sid⟩ := e
  unfold backfill expectedEvent
  by_cases h1 : ts = 0 <;> by_cases h2 : st = [] <;> simp [h1, h2]

/-- The decode loop on datagrams that are all well-formed and not empty: the
first ones fill the queue up to its capacity, the others are dropped, each with
a log entry, and the loop goes on. -/
theorem readLoop_wellFormed (unmarshal : Bytes → Except GoError SSHLoginEvent)
    (ds : List (Bytes × Int × SSHLoginEvent))
    (hwf : ∀ d ∈ ds, d.1 ≠ [] ∧ unmarshal d.1 = .ok d.2.2) :
    ∀ (m : Monitor) (log : List LogEntry), m.eventCh.length ≤ m.eventChCap →
      readLoop unmarshal (ds.map fun d => .received d.1 d.2.1) (m, log) =
        (({ m with eventCh :=
              (m.eventCh ++ ds.map fun d => expectedEvent d.2.2 d.2.1).take m.eventChCap },
          log ++
            ((ds.map fun d => expectedEvent d.2.2 d.2.1).take
                (m.eventChCap - m.eventCh.length)).map LogEntry.detected ++
            List.replicate (ds.length - (m.eventChCap - m.eventCh.length)) LogEntry.queueFull),
          false) := by
  induction ds with
  | nil =>
    intro m log hq
    simp [readLoop, List.take_of_length_le hq]
  | cons d ds ih =>
    intro m log hq
    obtain ⟨hd1, hd2⟩ := hwf d (List.mem_cons_self _ _)
    have hwf2 : ∀ x ∈ ds, x.1 ≠ [] ∧ unmarshal x.1 = .ok x.2.2 :=
      fun x hx => hwf x (List.mem_cons_of_mem _ hx)
    simp only [List.map_cons, readLoop, readLoopStep, hd1, if_false, hd2, backfill_eq_expectedEvent]
    by_cases hlt : m.eventCh.length < m.eventChCap
    · simp only [hlt, if_true]
      rw [ih hwf2 _ _ (by simpa using hlt)]
      obtain ⟨k, hk⟩ : ∃ k, m.eventChCap - m.eventCh.length = k + 1 :=
        ⟨m.eventChCap - m.eventCh.length - 1, by omega⟩
      have hk2 : m.eventChCap - (m.eventCh.length + 1) = k := by omega
      simp [hk, hk2, List.append_assoc]
    · have heq : m.eventCh.length = m.eventChCap := le_antisymm hq (not_lt.mp hlt)
      simp only [hlt, if_false]
      rw [ih hwf2 _ _ hq]
      have h0 : m.eventChCap - m.eventCh.length = 0 := by omega
      have ht : ∀ xs : List SSHLoginEvent, (m.eventCh ++ xs).take m.eventChCap = m.eventCh := by
        intro xs
        rw [← heq, List.take_left']
        rfl
      simp [h0, ht, List.replicate_succ]

theorem count_queueFull_map_detected (es : List SSHLoginEvent) :
    (es.map LogEntry.detected).count LogEntry.queueFull = 0 := by
  induction es with
  | nil => rfl
  | cons e es ih => simp [List.count_cons, ih]

/-- C5: on `n` well-formed, non-empty datagrams, with the queue of a new monitor
(capacity 100) empty at the start and never drained, the decode loop does not
return, the queue ends holding exactly the events of the first `min n 100`
datagrams in arrival order, and the other `n - min n 100` events are dropped,
each with a queue-full log entry; for `n = 150` that is 100 kept and 50
dropped. -/
theorem readLoop_keeps_first_hundred (unmarshal : Bytes → Except GoError SSHLoginEvent)
    (ds : List (Bytes × Int × SSHLoginEvent))
    (hwf : ∀ d ∈ ds, d.1 ≠ [] ∧ unmarshal d.1 = .ok d.2.2) :
    (readLoop unmarshal (ds.map fun d => .received d.1 d.2.1) (NewMonitor, [])).2 = false ∧
    (readLoop unmarshal (ds.map fun d => .received d.1 d.2.1) (NewMonitor, [])).1.1.eventCh =
      (ds.take (min ds.length 100)).map (fun d => expectedEvent d.2.2 d.2.1) ∧
    (readLoop unmarshal (ds.map fun d => .received d.1 d.2.1) (NewMonitor, [])).1.2.count
      LogEntry.queueFull = ds.length - min ds.length 100 ∧
    (ds.length = 150 →
      (readLoop unmarshal (ds.map fun d => .received d.1 d.2.1)
        (NewMonitor, [])).1.1.eventCh.length = 100 ∧
      (readLoop unmarshal (ds.map fun d => .received d.1 d.2.1) (NewMonitor, [])).1.2.count
        LogEntry.queueFull = 50) := by
  have h := readLoop_wellFormed unmarshal ds hwf NewMonitor [] (by decide)
  have hcap : NewMonitor.eventChCap = 100 := rfl
  have hq : NewMonitor.eventCh = [] := rfl
  rw [h]
  simp only [hcap, hq, List.length_nil, Nat.sub_zero, List.nil_append]
  have hcount : (List.map LogEntry.detected
        (List.take 100 (List.map (fun d => expectedEvent d.2.2 d.2.1) ds)) ++
      List.replicate (ds.length - 100) LogEntry.queueFull).count LogEntry.queueFull =
      ds.length - 100 := by
    rw [List.count_append, count_queueFull_map_detected, List.count_replicate_self]
    omega
  have htake : List.take 100 (List.map (fun d => expectedEvent d.2.2 d.2.1) ds) =
      (ds.take (min ds.length 100)).map (fun d => expectedEvent d.2.2 d.2.1) := by
    rw [← List.map_take]
    congr 1
    rcases Nat.le_total ds.length 100 with hle | hle
    · rw [Nat.min_eq_left hle, List.take_of_length_le hle, List.take_of_length_le (le_refl _)]
    · rw [Nat.min_eq_right hle]
  refine ⟨trivial, htake, ?_, ?_⟩
  · rw [hcount]; omega
  · intro h150
    refine ⟨?_, ?_⟩
    · simp [h150]
    · rw [hcount]; omega

/-- Witness of `readLoop_keeps_first_hundred`: two well-formed datagrams. -/
theorem readLoop_keeps_first_hundred_witness :
    (readLoop sampleUnmarshal
      ([([Char.ofNat 123, Char.ofNat 125], (7 : Int), zeroEvent),
        ([Char.ofNat 123, Char.ofNat 125], (9 : Int), zeroEvent)].map
          fun d => .received d.1 d.2.1) (NewMonitor, [])).1.1.eventCh =
      ([([Char.ofNat 123, Char.ofNat 125], (7 : Int), zeroEvent),
        ([Char.ofNat 123, Char.ofNat 125], (9 : Int), zeroEvent)].take
          (min 2 100)).map (fun d => expectedEvent d.2.2 d.2.1) :=
  (readLoop_keeps_first_hundred sampleUnmarshal
    [([Char.ofNat 123, Char.ofNat 125], (7 : Int), zeroEvent),
      ([Char.ofNat 123, Char.ofNat 125], (9 : Int), zeroEvent)]
    (by
      intro d hd
      simp only [List.mem_cons, List.mem_singleton, List.not_mem_nil, or_false] at hd
      rcases hd with rfl | rfl <;> exact ⟨by decide, rfl⟩)).2.1

/-- The decode loop on any datagrams, with room in the queue for every event
they decode to: the loop goes on and the queue gains exactly those events. -/
theorem readLoop_mixed (unmarshal : Bytes → Except GoError SSHLoginEvent)
    (ds : List (Bytes × Int)) :
    ∀ (m : Monitor) (log : List LogEntry),
      m.eventCh.length + (expectedEvents unmarshal ds).length ≤ m.eventChCap →
      (readLoop unmarshal (ds.map fun d => .received d.1 d.2) (m, log)).2 = false ∧
      (readLoop unmarshal (ds.map fun d => .received d.1 d.2) (m, log)).1.1 =
        { m with eventCh := m.eventCh ++ expectedEvents unmarshal ds } := by
  induction ds with
  | nil =>
    intro m log _
    simp [readLoop, expectedEvents]
  | cons d ds ih =>
    intro m log hroom
    simp only [List.map_cons, readLoop, readLoopStep]
    by_cases he : d.1 = []
    · have hx : expectedEvents unmarshal (d :: ds) = expectedEvents unmarshal ds := by
        simp [expectedEvents, List.filterMap_cons, expectedOfDatagram, he]
      rw [hx] at hroom ⊢
      simp only [he, if_true]
      exact ih m log hroom
    · cases hu : unmarshal d.1 with
      | error err =>
        have hx : expectedEvents unmarshal (d :: ds) = expectedEvents unmarshal ds := by
          simp [expectedEvents, List.filterMap_cons, expectedOfDatagram, he, hu]
        rw [hx] at hroom ⊢
        simp only [he, if_false]
        exact ih m _ hroom
      | ok e =>
        have hx : expectedEvents unmarshal (d :: ds) =
            expectedEvent e d.2 :: expectedEvents unmarshal ds := by
          simp [expectedEvents, List.filterMap_cons, expectedOfDatagram, he, hu]
        rw [hx] at hroom ⊢
        have hlt : m.eventCh.length < m.eventChCap := by
          simp only [List.length_cons] at hroom; omega
        simp only [he, if_false, hlt, if_true, backfill_eq_expectedEvent]
        have := ih { m with eventCh := m.eventCh ++ [expectedEvent e d.2] }
          (log ++ [.detected (expectedEvent e d.2)])
          (by simp only [List.length_append, List.length_cons, List.length_nil] at hroom ⊢; omega)
        refine ⟨this.1, ?_⟩
        rw [this.2]
        simp [List.append_assoc]

theorem expectedEvent_status (e : SSHLoginEvent) (now : Int) :
    (expectedEvent e now).Status ≠ [] := by
  unfold expectedEvent
  by_cases h : e.Status = []
  · simp only [h, ne_eq, not_true_eq_false, if_false]
    decide
  · simp [h]

theorem expectedEvent_timestamp (e : SSHLoginEvent) (now : Int) (h : now ≠ 0) :
    (expectedEvent e now).Timestamp ≠ 0 := by
  unfold expectedEvent
  by_cases h1 : e.Timestamp = 0
  · simp [h1, h]
  · simp [h1]

theorem mem_expectedEvents {unmarshal : Bytes → Except GoError SSHLoginEvent}
    {ds : List (Bytes × Int)} {x : SSHLoginEvent} (h : x ∈ expectedEvents unmarshal ds) :
    ∃ d ∈ ds, ∃ e, d.1 ≠ [] ∧ unmarshal d.1 = .ok e ∧ x = expectedEvent e d.2 := by
  unfold expectedEvents at h
  obtain ⟨d, hd, hx⟩ := List.mem_filterMap.mp h
  refine ⟨d, hd, ?_⟩
  unfold expectedOfDatagram at hx
  by_cases he : d.1 = []
  · simp [he] at hx
  · cases hu : unmarshal d.1 with
    | error err => simp [he, hu] at hx
    | ok e =>
      simp only [he, if_false, hu, Option.some.injEq] at hx
      exact ⟨e, he, rfl, hx.symm⟩

/-- C6 (amended): on any sequence of received datagrams, malformed and
well-formed mixed, with room in the queue for the events they decode to, the
decode loop does not return, and what it publishes is exactly, in arrival
order, the events of the datagrams that are not empty and decode: each with the
timestamp of the sender if that is not zero and the time of receipt otherwise,
the status of the sender if that is not empty and `success` otherwise, and
every other field as decoded.  The status of a published event is never empty,
and its timestamp is not zero provided no time of receipt is zero. -/
theorem readLoop_skips_malformed (unmarshal : Bytes → Except GoError SSHLoginEvent)
    (ds : List (Bytes × Int)) (m : Monitor) (log : List LogEntry)
    (hroom : m.eventCh.length + (expectedEvents unmarshal ds).length ≤ m.eventChCap) :
    (readLoop unmarshal (ds.map fun d => .received d.1 d.2) (m, log)).2 = false ∧
    (readLoop unmarshal (ds.map fun d => .received d.1 d.2) (m, log)).1.1.eventCh =
      m.eventCh ++ expectedEvents unmarshal ds ∧
    (∀ x ∈ expectedEvents unmarshal ds, x.Status ≠ []) ∧
    ((∀ d ∈ ds, d.2 ≠ 0) → ∀ x ∈ expectedEvents unmarshal ds, x.Timestamp ≠ 0) := by
  obtain ⟨h1, h2⟩ := readLoop_mixed unmarshal ds m log hroom
  refine ⟨h1, by rw [h2], ?_, ?_⟩
  · intro x hx
    obtain ⟨d, -, e, -, -, rfl⟩ := mem_expectedEvents hx
    exact expectedEvent_status e d.2
  · intro hnow x hx
    obtain ⟨d, hd, e, -, -, rfl⟩ := mem_expectedEvents hx
    exact expectedEvent_timestamp e d.2 (hnow d hd)

set_option maxRecDepth 100000 in
/-- Witness of `readLoop_skips_malformed`: a malformed datagram, an empty one and
two well-formed ones, into the empty queue of a new monitor. -/
theorem readLoop_skips_malformed_witness :
    expectedEvents sampleUnmarshal
        [("not json".toList, 5), ([Char.ofNat 123, Char.ofNat 125], 7), ([], 8),
          ("\x7b\"username\":\"alice\",\"timestamp\":42,\"status\":\"failed\"\x7d".toList, 9)] =
      [{ zeroEvent with Timestamp := 7, Status := "success".toList },
        { zeroEvent with Username := "alice".toList, Timestamp := 42,
                         Status := "failed".toList }] ∧
    (readLoop sampleUnmarshal
      ([("not json".toList, (5 : Int)), ([Char.ofNat 123, Char.ofNat 125], 7), ([], 8),
          ("\x7b\"username\":\"alice\",\"timestamp\":42,\"status\":\"failed\"\x7d".toList, 9)].map
        fun d => .received d.1 d.2) (NewMonitor, [])).1.1.eventCh =
      NewMonitor.eventCh ++ expectedEvents sampleUnmarshal
        [("not json".toList, 5), ([Char.ofNat 123, Char.ofNat 125], 7), ([], 8),
          ("\x7b\"username\":\"alice\",\"timestamp\":42,\"status\":\"failed\"\x7d".toList, 9)] :=
  ⟨by decide,
    (readLoop_skips_malformed sampleUnmarshal
      [("not json".toList, 5), ([Char.ofNat 123, Char.ofNat 125], 7), ([], 8),
        ("\x7b\"username\":\"alice\",\"timestamp\":42,\"status\":\"failed\"\x7d".toList, 9)]
      NewMonitor [] (by decide)).2.1⟩

set_option maxRecDepth 100000 in
/-- C6 as stated fails on the timestamp when the clock reads zero at receipt:
the datagram `{}` decodes to the event with timestamp zero, the loop sets its
timestamp to the time of receipt, which is zero, and publishes it; the queue
then holds an event whose timestamp is zero. -/
theorem readLoop_publishes_zero_timestamp :
    sampleUnmarshal [Char.ofNat 123, Char.ofNat 125] = .ok zeroEvent ∧
    NewMonitor.eventCh.length +
        (expectedEvents sampleUnmarshal [([Char.ofNat 123, Char.ofNat 125], 0)]).length ≤
      NewMonitor.eventChCap ∧
    (readLoop sampleUnmarshal [.received [Char.ofNat 123, Char.ofNat 125] 0]
      (NewMonitor, [])).2 = false ∧
    (readLoop sampleUnmarshal [.received [Char.ofNat 123, Char.ofNat 125] 0]
      (NewMonitor, [])).1.1.eventCh = [{ zeroEvent with Status := "success".toList }] ∧
    (∃ x ∈ (readLoop sampleUnmarshal [.received [Char.ofNat 123, Char.ofNat 125] 0]
      (NewMonitor, [])).1.1.eventCh, x.Timestamp = 0) :=
  ⟨rfl, by decide, by decide, by decide, by decide⟩

theorem fieldsGo_nonempty (s : List Char) :
    ∀ (cur : List Char), ∀ x ∈ fieldsGo s cur, x ≠ [] := by
  induction s with
  | nil =>
    intro cur x hx
    unfold fieldsGo at hx
    split at hx
    · simp at hx
    · simp only [List.mem_singleton] at hx
      subst hx
      simpa using ‹¬cur = []›
  | cons c cs ih =>
    intro cur x hx
    unfold fieldsGo at hx
    split at hx
    · split at hx
      · exact ih [] x hx
      · rcases List.mem_cons.mp hx with rfl | hx
        · simpa using ‹¬cur = []›
        · exact ih [] x hx
    · exact ih (c :: cur) x hx

/-- Every field that `strings.Fields` returns is non-empty. -/
theorem fields_nonempty (s : GoString) : ∀ x ∈ fields s, x ≠ [] :=
  fieldsGo_nonempty s []

theorem fields_nil : fields [] = [] := rfl

/-- C7: the event that `BuildEventFromEnv` builds.  The username is `PAM_USER`,
or `unknown` when that is empty; the address is `PAM_RHOST` when not empty,
otherwise the first field of `SSH_CONNECTION` when there is one, otherwise
`localhost`; the port is the second field of `SSH_CONNECTION` when there are
two, otherwise empty; the tty is `PAM_TTY`, or `unknown` when that is empty;
the status is `success` and the method `unknown`.  So username, address, tty
and status are never empty; and with only `PAM_USER=alice` and
`SSH_CONNECTION=10.0.0.5 54321 10.0.0.1 22` set the event has username `alice`,
address `10.0.0.5`, port `54321`, status `success` and tty `unknown`. -/
theorem BuildEventFromEnv_fields (getenv : GoString → GoString) (now : Int) (pid : Nat) :
    (BuildEventFromEnv getenv now pid).Username =
      (if getenv "PAM_USER".toList = [] then "unknown".toList else getenv "PAM_USER".toList) ∧
    (BuildEventFromEnv getenv now pid).IP =
      (if getenv "PAM_RHOST".toList ≠ [] then getenv "PAM_RHOST".toList
       else match fields (getenv "SSH_CONNECTION".toList) with
         | first :: _ => first
         | [] => "localhost".toList) ∧
    (BuildEventFromEnv getenv now pid).Port =
      (match fields (getenv "SSH_CONNECTION".toList) with
        | _ :: second :: _ => second
        | _ => []) ∧
    (BuildEventFromEnv getenv now pid).TTY =
      (if getenv "PAM_TTY".toList = [] then "unknown".toList else getenv "PAM_TTY".toList) ∧
    (BuildEventFromEnv getenv now pid).Status = "success".toList ∧
    (BuildEventFromEnv getenv now pid).Method = "unknown".toList ∧
    (BuildEventFromEnv getenv now pid).Username ≠ [] ∧
    (BuildEventFromEnv getenv now pid).IP ≠ [] ∧
    (BuildEventFromEnv getenv now pid).TTY ≠ [] ∧
    (BuildEventFromEnv getenv now pid).Status ≠ [] ∧
    (BuildEventFromEnv aliceEnv now pid).Username = "alice".toList ∧
    (BuildEventFromEnv aliceEnv now pid).IP = "10.0.0.5".toList ∧
    (BuildEventFromEnv aliceEnv now pid).Port = "54321".toList ∧
    (BuildEventFromEnv aliceEnv now pid).Status = "success".toList ∧
    (BuildEventFromEnv aliceEnv now pid).TTY = "unknown".toList := by
  have hip : (BuildEventFromEnv getenv now pid).IP =
      (if getenv "PAM_RHOST".toList ≠ [] then getenv "PAM_RHOST".toList
       else match fields (getenv "SSH_CONNECTION".toList) with
         | first :: _ => first
         | [] => "localhost".toList) := by
    unfold BuildEventFromEnv
    simp only
    generalize getenv "PAM_RHOST".toList = rhost
    generalize hc : getenv "SSH_CONNECTION".toList = conn
    have hne := fields_nonempty conn
    by_cases hr : rhost = []
    · subst hr
      by_cases hcn : conn = []
      · subst hcn
        simp [fields_nil]
      · rcases hf : fields conn with _ | ⟨a, rest⟩
        · simp [hcn]
        · have ha : a ≠ [] := hne a (by rw [hf]; exact List.mem_cons_self _ _)
          simp [hcn, ha]
    · by_cases hcn : conn = [] <;> simp [hr, hcn]
  have hport : (BuildEventFromEnv getenv now pid).Port =
      (match fields (getenv "SSH_CONNECTION".toList) with
        | _ :: second :: _ => second
        | _ => []) := by
    unfold BuildEventFromEnv
    simp only
    generalize getenv "SSH_CONNECTION".toList = conn
    by_cases hcn : conn = []
    · subst hcn
      simp [fields_nil]
    · rcases hf : fields conn with _ | ⟨a, _ | ⟨b, rest⟩⟩ <;> simp [hcn]
  have huser : (BuildEventFromEnv getenv now pid).Username =
      (if getenv "PAM_USER".toList = [] then "unknown".toList
       else getenv "PAM_USER".toList) := rfl
  have htty : (BuildEventFromEnv getenv now pid).TTY =
      (if getenv "PAM_TTY".toList = [] then "unknown".toList else getenv "PAM_TTY".toList) := rfl
  refine ⟨huser, hip, hport, htty, rfl, rfl, ?_, ?_, ?_, ?_, ?_, ?_, ?_, ?_, ?_⟩
  · rw [huser]
    split
    · decide
    · assumption
  · rw [hip]
    split
    · assumption
    · split
      · rename_i first rest hf
        exact fields_nonempty _ first (by rw [hf]; exact List.mem_cons_self _ _)
      · decide
  · rw [htty]
    split
    · decide
    · assumption
  · show "success".toList ≠ []
    decide
  · rfl
  · rfl
  · rfl
  · rfl
  · rfl

theorem not_hash_of_UsePAM (t : GoString) (h : hasPrefix t "UsePAM".toList = true) :
    hasPrefix t "#".toList = false := by
  cases t with
  | nil => simp [hasPrefix, List.isPrefixOf] at h
  | cons c cs =>
    have hc : c = 'U' := by
      simp only [hasPrefix, String.toList, List.isPrefixOf, Bool.and_eq_true, beq_iff_eq] at h
      exact h.1.symm
    subst hc
    simp [hasPrefix, List.isPrefixOf]

theorem usePAMLoopStep_eq (acc : List GoString) (en : Bool) (l : GoString) :
    usePAMLoopStep (acc, en) l =
      (acc ++ [if codeEnabledLine l then l else commentOut l], en || codeEnabledLine l) := by
  have key := not_hash_of_UsePAM (trimSpace l)
  unfold usePAMLoopStep codeEnabledLine commentOut
  simp only []
  generalize hasPrefix (trimSpace l) "UsePAM".toList = a at key ⊢
  generalize hasPrefix (trimSpace l) "#".toList = b at key ⊢
  generalize contains (trimSpace l) "yes".toList = c
  cases a <;> cases b <;> cases c <;> simp at key ⊢

theorem usePAMLoop_foldl (lines : List GoString) :
    ∀ (acc : List GoString) (en : Bool),
      lines.foldl usePAMLoopStep (acc, en) =
        (acc ++ lines.map (fun l => if codeEnabledLine l then l else commentOut l),
          en || lines.any codeEnabledLine) := by
  induction lines with
  | nil => intro acc en; simp
  | cons l ls ih =>
    intro acc en
    rw [List.foldl_cons, usePAMLoopStep_eq, ih]
    simp [List.append_assoc, Bool.or_assoc]

/-- The loop of `ensureUsePAM` when no line passes its test: every line stays,
the lines that begin with `UsePAM` get the comment marker. -/
theorem usePAMLoop_of_none (lines : List GoString)
    (h : ∀ l ∈ lines, codeEnabledLine l = false) :
    usePAMLoop lines = (lines.map commentOut, false) := by
  unfold usePAMLoop
  rw [usePAMLoop_foldl]
  have h1 : lines.map (fun l => if codeEnabledLine l then l else commentOut l) =
      lines.map commentOut :=
    List.map_congr_left (fun l hl => by simp [h l hl])
  have h2 : lines.any codeEnabledLine = false := by
    rw [List.any_eq_false]
    intro l hl
    simp [h l hl]
  simp [h1, h2]

/-- The loop of `ensureUsePAM` when some line passes its test. -/
theorem usePAMLoop_of_some (lines : List GoString)
    (h : ∃ l ∈ lines, codeEnabledLine l = true) : (usePAMLoop lines).2 = true := by
  unfold usePAMLoop
  rw [usePAMLoop_foldl]
  obtain ⟨l, hl, hc⟩ := h
  simp only [Bool.false_or]
  exact List.any_eq_true.mpr ⟨l, hl, hc⟩

/-- What `ensureUsePAM` does by its own test.  When no line of the sshd config,
trimmed, begins with `UsePAM` and contains `yes`, and no call fails, the file is
rewritten to its lines in order, those beginning with `UsePAM` behind a comment
marker and all others unchanged, followed by the line `UsePAM yes`: one line
more than before.  When some line passes the test, nothing is changed. -/
theorem ensureUsePAM_by_code_test (f : RewriteFaults) (run : Command → Option GoError)
    (w : World) (content : Bytes) (hw : w.sshd = some content)
    (hs : (scanLines content).2 = none) :
    ((∀ l ∈ (scanLines content).1, codeEnabledLine l = false) →
      f.rename = none → f.create = none → f.flush = none →
      (ensureUsePAM f run w).1 = none ∧
      (ensureUsePAM f run w).2.sshd =
        some (render ((scanLines content).1.map commentOut ++ [UsePAMDirective])) ∧
      ((scanLines content).1.map commentOut ++ [UsePAMDirective]).length =
        (scanLines content).1.length + 1) ∧
    ((∃ l ∈ (scanLines content).1, codeEnabledLine l = true) →
      ensureUsePAM f run w = (none, w)) := by
  rcases hsc : scanLines content with ⟨lines, err⟩
  rw [hsc] at hs
  simp only at hs
  subst hs
  constructor
  · intro hnone h1 h2 h3
    unfold ensureUsePAM
    simp [hw, hsc, usePAMLoop_of_none lines hnone, h1, h2, h3, restartSSHD_eq]
  · intro hsome
    unfold ensureUsePAM
    simp [hw, hsc, usePAMLoop_of_some lines hsome]

set_option maxRecDepth 100000 in
/-- C8 at the failing input: the sshd config `commentWorld.sshd` has the line
`UsePAM no # yes would enable PAM`.  No line of it has the keyword `UsePAM` with
the value `yes`, so the file should be rewritten with that line commented out and
`UsePAM yes` appended; `ensureUsePAM` finds `yes` in the line, takes PAM for
enabled, returns success and leaves the file as it is. -/
theorem ensureUsePAM_misses_disabled :
    (scanLines "Port 22\nUsePAM no # yes would enable PAM\n".toList) =
      (["Port 22".toList, "UsePAM no # yes would enable PAM".toList], none) ∧
    specEnabledLine "Port 22".toList = false ∧
    specEnabledLine "UsePAM no # yes would enable PAM".toList = false ∧
    codeEnabledLine "UsePAM no # yes would enable PAM".toList = true ∧
    ensureUsePAM noRewriteFaults (fun _ => none) commentWorld = (none, commentWorld) ∧
    commentWorld.sshd = some "Port 22\nUsePAM no # yes would enable PAM\n".toList := by
  decide

theorem modifyPAMConfig_hook (add : Bool) (f : RewriteFaults) (w : World) :
    (modifyPAMConfig add f w).2.hook = w.hook := by
  unfold modifyPAMConfig
  cases hp : w.pam with
  | none => simp
  | some content =>
    rcases hs : scanLines content with ⟨lines, _ | err⟩
    · rcases f with ⟨_ | e1, _ | e2, _ | ⟨n, e3⟩, _ | e4⟩ <;> simp [hs, restorePAM]
    · simp [hs]

/-- C9 (amended): when `Install`, run as root with the hook not yet installed,
fails at the PAM step after the sshd step and the hook-binary step have
succeeded, it returns an error, and of the entry at the hook path: a symbolic
link is removed before the error is returned, provided the removal itself
succeeds; a regular file, such as the copied executable, is left in place. -/
theorem Install_rollback (f : InstallFaults) (w w1 w2 : World)
    (hroot : w.euid = 0) (hni : isInstalled w = false)
    (h1 : ensureUsePAM f.sshd f.run w = (none, w1))
    (h2 : ensureHookBinary f.hook w1 = (none, w2))
    (h3 : (modifyPAMConfig true f.pam w2).1 ≠ none) :
    (Install f w).1 ≠ none ∧
    (∀ target, w2.hook = some (.symlink target) → f.rollback = none →
      (Install f w).2.hook = none) ∧
    (∀ content, w2.hook = some (.regular content) →
      (Install f w).2.hook = some (.regular content)) := by
  have hk := modifyPAMConfig_hook true f.pam w2
  unfold Install
  simp only [hroot, hni, h1, h2, ne_eq, not_true_eq_false, if_false, Bool.false_eq_true]
  rcases hm : modifyPAMConfig true f.pam w2 with ⟨_ | err, w3⟩
  · rw [hm] at h3
    exact absurd rfl h3
  · rw [hm] at hk
    simp only at hk
    refine ⟨by simp, ?_, ?_⟩
    · intro target ht hr
      simp [removeHookBinary, hk, ht, hr]
    · intro content hc
      simp [removeHookBinary, hk, hc]

set_option maxRecDepth 100000 in
/-- Witness of `Install_rollback`: the hook is linked, the backup rename of the
PAM file fails, and the link is gone when `Install` returns. -/
theorem Install_rollback_witness :
    (ensureHookBinary linkThenPamFails.hook
      (ensureUsePAM linkThenPamFails.sshd linkThenPamFails.run freshWorld).2).2.hook =
      some (.symlink "/opt/pika/pika-agent".toList) ∧
    (Install linkThenPamFails freshWorld).1 ≠ none ∧
    (∀ target,
      (ensureHookBinary linkThenPamFails.hook
        (ensureUsePAM linkThenPamFails.sshd linkThenPamFails.run freshWorld).2).2.hook =
        some (.symlink target) → linkThenPamFails.rollback = none →
      (Install linkThenPamFails freshWorld).2.hook = none) ∧
    (∀ content,
      (ensureHookBinary linkThenPamFails.hook
        (ensureUsePAM linkThenPamFails.sshd linkThenPamFails.run freshWorld).2).2.hook =
        some (.regular content) →
      (Install linkThenPamFails freshWorld).2.hook = some (.regular content)) :=
  ⟨by decide,
    Install_rollback linkThenPamFails freshWorld
      (ensureUsePAM linkThenPamFails.sshd linkThenPamFails.run freshWorld).2
      (ensureHookBinary linkThenPamFails.hook
        (ensureUsePAM linkThenPamFails.sshd linkThenPamFails.run freshWorld).2).2
      (by decide) (by decide) (by decide) (by decide) (by decide)⟩

set_option maxRecDepth 100000 in
/-- C9 as stated fails when the executable was copied: nothing is at the hook
path before the call, the hook-binary step copies the executable there, the PAM
step fails, `Install` returns its error, and the copy is still at the hook
path. -/
theorem Install_leaves_copied_binary :
    freshWorld.hook = none ∧
    (ensureHookBinary copyThenPamFails.hook
      (ensureUsePAM copyThenPamFails.sshd copyThenPamFails.run freshWorld).2).2.hook =
      some (.regular "ELF".toList) ∧
    (Install copyThenPamFails freshWorld).1 =
      some (.wrapError "修改 PAM 配置失败: "
        (.linkError "rename" PAMConfigFile (PAMConfigFile ++ ".bak".toList) (.errno Errno.EIO))) ∧
    (Install copyThenPamFails freshWorld).2.hook = some (.regular "ELF".toList) := by
  decide

theorem attempted_ne_nil (run : Command → Option GoError) (c : Command) (cs : List Command) :
    attempted run (c :: cs) ≠ [] := by
  unfold attempted
  split <;> simp

theorem attempted_dropLast_failed (run : Command → Option GoError) (cmds : List Command) :
    ∀ c ∈ (attempted run cmds).dropLast, run c ≠ none := by
  induction cmds with
  | nil => simp [attempted]
  | cons c cs ih =>
    intro x hx
    unfold attempted at hx
    split at hx
    · simp at hx
    · rename_i hc
      cases cs with
      | nil => simp [attempted] at hx
      | cons d ds =>
        rw [List.dropLast_cons_of_ne_nil (attempted_ne_nil run d ds)] at hx
        rcases List.mem_cons.mp hx with rfl | hx
        · exact hc
        · exact ih x hx

theorem attempted_last_succeeded (run : Command → Option GoError) (cmds : List Command)
    (h : ∃ c ∈ cmds, run c = none) :
    ∃ c, (attempted run cmds).getLast? = some c ∧ run c = none := by
  induction cmds with
  | nil => simp at h
  | cons c cs ih =>
    unfold attempted
    by_cases hc : run c = none
    · exact ⟨c, by simp [hc], hc⟩
    · simp only [hc, if_false]
      obtain ⟨x, hx, hr⟩ := h
      rcases List.mem_cons.mp hx with rfl | hx
      · exact absurd hr hc
      · obtain ⟨y, hy, hry⟩ := ih ⟨x, hx, hr⟩
        refine ⟨y, ?_, hry⟩
        cases cs with
        | nil => simp at hx
        | cons d ds =>
          obtain ⟨a, rest, ha⟩ := List.exists_cons_of_ne_nil (attempted_ne_nil run d ds)
          rw [ha] at hy ⊢
          rw [List.getLast?_cons_cons]
          exact hy

theorem attempted_all_failed (run : Command → Option GoError) (cmds : List Command)
    (h : ∀ c ∈ cmds, run c ≠ none) : attempted run cmds = cmds := by
  induction cmds with
  | nil => rfl
  | cons c cs ih =>
    unfold attempted
    rw [if_neg (h c (List.mem_cons_self _ _)), ih (fun x hx => h x (List.mem_cons_of_mem _ hx))]

/-- C10 (amended): `restartSSHD` tries the four commands in the order
`systemctl restart sshd`, `service sshd restart`, `systemctl restart ssh`,
`service ssh restart`.  Whatever their outcomes, the commands it runs are a
non-empty initial part of that order, every command run before the last one
has failed, the last one has succeeded when the function reports success, all
four are run when it reports failure, and it reports failure if and only if
all four fail. -/
theorem restartSSHD_order (run : Command → Option GoError) (w : World) :
    restartCommands =
      [systemctlRestartSshd, serviceSshdRestart, systemctlRestartSsh, serviceSshRestart] ∧
    ∃ ran, (restartSSHD run w).2.commands = w.commands ++ ran ∧
      ran <+: restartCommands ∧ ran ≠ [] ∧
      (∀ c ∈ ran.dropLast, run c ≠ none) ∧
      ((restartSSHD run w).1 = none → ∃ c, ran.getLast? = some c ∧ run c = none) ∧
      ((restartSSHD run w).1 ≠ none → ran = restartCommands) ∧
      ((restartSSHD run w).1 ≠ none ↔ ∀ c ∈ restartCommands, run c ≠ none) := by
  refine ⟨rfl, attempted run restartCommands, ?_, attempted_isPrefix run _,
    attempted_ne_nil run _ _, attempted_dropLast_failed run _, ?_, ?_, ?_⟩
  · rw [restartSSHD_eq]
  · rw [restartSSHD_eq]
    intro h
    apply attempted_last_succeeded
    by_contra hn
    have hall : ∀ c ∈ restartCommands, run c ≠ none := fun c hc hr => hn ⟨c, hc, hr⟩
    have h2 : (if ∀ c ∈ restartCommands, run c ≠ none then
        some (GoError.errorString "无法找到合适的方式重启 sshd 服务") else none) = none := h
    rw [if_pos hall] at h2
    exact absurd h2 (by simp)
  · rw [restartSSHD_eq]
    intro h
    apply attempted_all_failed
    by_contra hn
    simp only [hn, if_false] at h
    exact h rfl
  · rw [restartSSHD_eq]
    constructor
    · intro h
      by_contra hn
      simp only [hn, if_false] at h
      exact h rfl
    · intro h
      show (if ∀ c ∈ restartCommands, run c ≠ none then
        some (GoError.errorString "无法找到合适的方式重启 sshd 服务") else none) ≠ none
      rw [if_pos h]
      simp

set_option maxRecDepth 100000 in
/-- C10 as stated fails on the order: when only `service sshd restart` succeeds,
the commands run are `systemctl restart sshd` and `service sshd restart`, which
is not an initial part of the order the specification gives (both `systemctl`
commands first). -/
theorem restartSSHD_not_spec_order :
    specRestartOrder =
      [systemctlRestartSshd, systemctlRestartSsh, serviceSshdRestart, serviceSshRestart] ∧
    freshWorld.commands = [] ∧
    (restartSSHD onlyServiceSshd freshWorld).1 = none ∧
    (restartSSHD onlyServiceSshd freshWorld).2.commands =
      [systemctlRestartSshd, serviceSshdRestart] ∧
    ¬ ((restartSSHD onlyServiceSshd freshWorld).2.commands <+: specRestartOrder) := by
  decide

/-- C11: on Linux, `Start` with monitoring disabled, called on a stopped
monitor, is a no-op whatever faults are injected.  It returns success; the
monitor is the one it was, so it is still stopped, with no listener and no
cancellation signal if it had none, and no decode loop has been started; and
the machine is the one it was: no socket directory or socket file created, the
PAM file, the sshd config and their backups as they were, nothing placed at the
hook path, no command run. -/
theorem Start_disabled_noop (config : SSHLoginConfig) (f : StartFaults) (m : Monitor)
    (w : World) (hdisabled : config.Enabled = false) (hstopped : m.enabled = false) :
    Start "linux".toList config f m w = (none, m, w) ∧
    (Start "linux".toList config f m w).1 = none ∧
    (Start "linux".toList config f m w).2.1.enabled = false ∧
    (Start "linux".toList config f m w).2.1.listener = m.listener ∧
    (Start "linux".toList config f m w).2.1.cancel = m.cancel ∧
    (Start "linux".toList config f m w).2.1.loopsStarted = m.loopsStarted ∧
    (Start "linux".toList config f m w).2.2.socketDir = w.socketDir ∧
    (Start "linux".toList config f m w).2.2.socket = w.socket ∧
    (Start "linux".toList config f m w).2.2.pam = w.pam ∧
    (Start "linux".toList config f m w).2.2.pamBak = w.pamBak ∧
    (Start "linux".toList config f m w).2.2.sshd = w.sshd ∧
    (Start "linux".toList config f m w).2.2.sshdBak = w.sshdBak ∧
    (Start "linux".toList config f m w).2.2.hook = w.hook ∧
    (Start "linux".toList config f m w).2.2.commands = w.commands := by
  have h : Start "linux".toList config f m w = (none, m, w) := by
    unfold Start
    simp [hdisabled, hstopped]
  rw [h]
  exact ⟨rfl, rfl, hstopped, rfl, rfl, rfl, rfl, rfl, rfl, rfl, rfl, rfl, rfl, rfl⟩

set_option maxRecDepth 100000 in
/-- Witness of `Start_disabled_noop`: a new monitor on the machine `freshWorld`,
and the faults `userStartFaults`. -/
theorem Start_disabled_noop_witness :
    NewMonitor.enabled = false ∧
    NewMonitor.listener = false ∧ NewMonitor.cancel = false ∧ NewMonitor.loopsStarted = 0 ∧
    Start "linux".toList { Enabled := false } userStartFaults NewMonitor freshWorld =
      (none, NewMonitor, freshWorld) :=
  ⟨rfl, rfl, rfl, rfl,
    (Start_disabled_noop { Enabled := false } userStartFaults NewMonitor freshWorld rfl rfl).1⟩

end Pika
